import Mathlib

/-!
# Optional<T>: a shallow embedding of `optional/optional.h`

The header defines one class template, `Optional<T>`, with three private
members (`data_`, `is_initialized_`, `ptr_`) and a private helper `Forward`.

Embedding choices.

* The contained type `T` is a parameter.  Its special member functions are
  the fields of `Contained`: each may raise an error of type `E`, and the
  move operations also say what they leave in their source.
* `data_` is modelled by what lives in the raw storage: `some v` when a
  constructed, not yet destroyed `T` of value `v` is there, `none` otherwise.
* `ptr_` is either `nullptr` or the address of `data_` (the only value the
  code ever stores there is the result of `new (data_) T(...)`).
* An operation returns a `Res`: a normal return, a raised exception, a call
  of `std::terminate`, or undefined behaviour.  The first two carry the
  state afterwards and the list of `T` operations the call invoked, in
  order.
* An operation with two objects (`a = b`) takes the two states and returns
  both; the case where the two are one object (`a = a`) has definitions of
  its own, `Forward_self` and `assign_from_self`.
* For questions of aliasing between objects, the operations are given a
  second time over a `Memory` of objects in which `ptr_` is an address
  (`Forward_at`, `Reset_at`, ...); `Memory.view` relates the two.
-/

namespace OptionalModel

/-- Errors a caller of `Optional` can observe: the class `BadOptionalAccess`
of the header, or an error `e` raised by the contained type. -/
inductive Exc (E : Type) where
  | BadOptionalAccess : Exc E
  | contained (e : E) : Exc E
  deriving DecidableEq, Repr

/-- What `what()` returns for `BadOptionalAccess`. -/
def BadOptionalAccess.what : String := "Bad optional access"

/-- One invocation of a special member function of `T` by the container. -/
inductive Event (T A : Type) where
  /-- Call of `T(args...)`, the placement new of `Emplace`. -/
  | ctor_args (args : A) : Event T A
  /-- Call of `T(const T&)` with the source value. -/
  | ctor_copy (src : T) : Event T A
  /-- Call of `T(T&&)` with the source value. -/
  | ctor_move (src : T) : Event T A
  /-- Call of `dst = src` by copy. -/
  | assign_copy (dst src : T) : Event T A
  /-- Call of `dst = std::move(src)`. -/
  | assign_move (dst src : T) : Event T A
  /-- Call of `~T()` on the value `v`. -/
  | dtor (v : T) : Event T A
  deriving DecidableEq, Repr

/-- Is the event a constructor call of `T`? -/
def Event.isCtor {T A : Type} : Event T A → Bool
  | .ctor_args _ => true
  | .ctor_copy _ => true
  | .ctor_move _ => true
  | _ => false

/-- Is the event a call of an assignment operator of `T`? -/
def Event.isAssign {T A : Type} : Event T A → Bool
  | .assign_copy _ _ => true
  | .assign_move _ _ => true
  | _ => false

/-- Is the event a destructor call of `T`? -/
def Event.isDtor {T A : Type} : Event T A → Bool
  | .dtor _ => true
  | _ => false

/-- The special member functions of the contained type `T`.
`A` is the type of argument lists accepted by `Emplace`. -/
structure Contained (T A E : Type) where
  /-- Models `T(args...)`. -/
  construct : A → Except E T
  /-- Models `T(const T&)`. -/
  copy_construct : T → Except E T
  /-- Models `T(T&&)`: the new object or the error, and the source afterwards. -/
  move_construct : T → Except E T × T
  /-- Models `lhs = rhs`: the error if it raised, and `lhs` afterwards. -/
  copy_assign : T → T → Option E × T
  /-- Models `lhs = std::move(rhs)`: the error if it raised, `lhs` and `rhs`
  afterwards. -/
  move_assign : T → T → Option E × T × T

/-- How an argument is forwarded: `const T&` (copy) or `T&&` (move). -/
inductive ValueCategory where
  | lvalue
  | rvalue
  deriving DecidableEq, Repr

/-- The values `ptr_` takes: `nullptr` or the address of `data_`. -/
inductive Ptr where
  | null
  | data
  deriving DecidableEq, Repr

/-- The private members of `Optional<T>`. -/
structure Optional (T : Type) where
  data_ : Option T
  is_initialized_ : Bool
  ptr_ : Ptr
  deriving DecidableEq, Repr

/-- Outcome of a call. -/
inductive Res (Ev E S R : Type) where
  /-- Normal return of `r`, in state `s`, having invoked `tr`. -/
  | ret (r : R) (s : S) (tr : List Ev) : Res Ev E S R
  /-- An exception leaves the call, in state `s`, having invoked `tr`. -/
  | raise (e : Exc E) (s : S) (tr : List Ev) : Res Ev E S R
  /-- An exception reached a `noexcept` boundary: `std::terminate`. -/
  | terminate (tr : List Ev) : Res Ev E S R
  /-- Undefined behaviour. -/
  | ub : Res Ev E S R
  deriving DecidableEq, Repr

/-- The `T` operations a call invoked, in order. -/
def Res.trace {Ev E S R : Type} : Res Ev E S R → List Ev
  | .ret _ _ tr => tr
  | .raise _ _ tr => tr
  | .terminate tr => tr
  | .ub => []

/-- Re-express the state of an outcome. -/
def Res.mapState {Ev E S S2 R : Type} (f : S → S2) : Res Ev E S R → Res Ev E S2 R
  | .ret r s tr => .ret r (f s) tr
  | .raise e s tr => .raise e (f s) tr
  | .terminate tr => .terminate tr
  | .ub => .ub

section Operations

variable {T A E : Type}

/-- The default member initialisers: `is_initialized_ = false`,
`ptr_ = nullptr`, raw storage. -/
def Optional.init : Optional T :=
  { data_ := none, is_initialized_ := false, ptr_ := .null }

/-- Member `bool HasValue() const`. -/
def HasValue (self : Optional T) : Bool :=
  self.is_initialized_

/-- Member `T& operator*()` and its const overload: `return *ptr_;`. -/
def operator_star (self : Optional T) : Res (Event T A) E (Optional T) T :=
  match self.ptr_ with
  | .null => .ub
  | .data =>
    match self.data_ with
    | none => .ub
    | some v => .ret v self []

/-- Member `T& Value()` and its const overload. -/
def Value (self : Optional T) : Res (Event T A) E (Optional T) T :=
  if !self.is_initialized_ then
    .raise .BadOptionalAccess self []
  else
    operator_star self

/-- The block `if (ptr_ != nullptr) { ptr_->~T(); ptr_ = nullptr; }` that
opens both `Reset` and `Emplace`: the state afterwards and the destructor
call made, or `none` when `~T()` is run where no `T` lives. -/
def destroy_held (self : Optional T) : Option (Optional T × List (Event T A)) :=
  match self.ptr_ with
  | .data =>
    match self.data_ with
    | none => none
    | some v => some ({ self with data_ := none, ptr_ := .null }, [.dtor v])
  | .null => some (self, [])

/-- Member `void Reset()`. -/
def Reset (self : Optional T) : Res (Event T A) E (Optional T) Unit :=
  match destroy_held self with
  | none => .ub
  | some (s, tr) => .ret () { s with is_initialized_ := false } tr

/-- Member `void Emplace(Ts&& ... ts)`.  When `T(args...)` raises, the
assignment to `ptr_` and the statement `is_initialized_ = true` are not
reached. -/
def Emplace (C : Contained T A E) (self : Optional T) (args : A) :
    Res (Event T A) E (Optional T) Unit :=
  match destroy_held self with
  | none => .ub
  | some (s, tr) =>
    match C.construct args with
    | .ok w =>
      .ret () { s with data_ := some w, ptr_ := .data, is_initialized_ := true }
        (tr ++ [.ctor_args args])
    | .error e =>
      .raise (.contained e) { s with data_ := none } (tr ++ [.ctor_args args])

/-- The expression `T(std::forward<Value>(value))`: the constructor chosen
by the value category, its result, the argument afterwards and the call
made. -/
def construct_forwarded (C : Contained T A E) (cat : ValueCategory) (value : T) :
    Except E T × T × Event T A :=
  match cat with
  | .lvalue => (C.copy_construct value, value, .ctor_copy value)
  | .rvalue => ((C.move_construct value).1, (C.move_construct value).2, .ctor_move value)

/-- The expression `*ptr_ = std::forward<Value>(value)` on the live value
`old`: the error if the operator raised, `*ptr_` afterwards, the argument
afterwards and the call made. -/
def assign_forwarded (C : Contained T A E) (cat : ValueCategory) (old value : T) :
    Option E × T × T × Event T A :=
  match cat with
  | .lvalue => ((C.copy_assign old value).1, (C.copy_assign old value).2, value,
      .assign_copy old value)
  | .rvalue => ((C.move_assign old value).1, (C.move_assign old value).2.1,
      (C.move_assign old value).2.2, .assign_move old value)

/-- Member `void Forward(Value&& value)`.  The state is the container
together with the object `value` refers to.  A placement new whose
constructor raises leaves no object in the storage and `ptr_` unassigned. -/
def Forward (C : Contained T A E) (cat : ValueCategory) (self : Optional T) (value : T) :
    Res (Event T A) E (Optional T × T) Unit :=
  match self.ptr_ with
  | .null =>
    match construct_forwarded C cat value with
    | (.ok w, value2, ev) =>
      .ret () ({ self with data_ := some w, ptr_ := .data, is_initialized_ := true }, value2) [ev]
    | (.error e, value2, ev) =>
      .raise (.contained e) ({ self with data_ := none }, value2) [ev]
  | .data =>
    match self.data_ with
    | none => .ub
    | some old =>
      match assign_forwarded C cat old value with
      | (none, new, value2, ev) =>
        .ret () ({ self with data_ := some new, is_initialized_ := true }, value2) [ev]
      | (some e, new, value2, ev) =>
        .raise (.contained e) ({ self with data_ := some new }, value2) [ev]

/-- Member `Optional& operator=(const T& value)`. -/
def assign_const_T (C : Contained T A E) (self : Optional T) (value : T) :
    Res (Event T A) E (Optional T × T) Unit :=
  Forward C .lvalue self value

/-- Member `Optional& operator=(T&& rhs)`. -/
def assign_rvalue_T (C : Contained T A E) (self : Optional T) (rhs : T) :
    Res (Event T A) E (Optional T × T) Unit :=
  Forward C .rvalue self rhs

/-- The two value assignments, indexed by the category of the argument. -/
def assign_T (C : Contained T A E) (cat : ValueCategory) (self : Optional T) (value : T) :
    Res (Event T A) E (Optional T × T) Unit :=
  match cat with
  | .lvalue => assign_const_T C self value
  | .rvalue => assign_rvalue_T C self value

/-- Body shared by the two `Optional` assignments, `rhs` being another
object than `*this`:
`if (rhs.HasValue()) Forward(<forwarded> rhs.Value()); else Reset();`.
The state is the pair (`*this`, `rhs`): a move leaves its mark in the value
held by `rhs`. -/
def assign_from_Optional (C : Contained T A E) (cat : ValueCategory)
    (self rhs : Optional T) : Res (Event T A) E (Optional T × Optional T) Unit :=
  if HasValue rhs then
    match (Value rhs : Res (Event T A) E (Optional T) T) with
    | .ret v rhs1 _ =>
      (Forward C cat self v).mapState (fun p => (p.1, { rhs1 with data_ := some p.2 }))
    | .raise e rhs1 tr => .raise e (self, rhs1) tr
    | .terminate tr => .terminate tr
    | .ub => .ub
  else
    (Reset self).mapState (fun s => (s, rhs))

/-- Member `Optional& operator=(const Optional& rhs)`. -/
def assign_const_Optional (C : Contained T A E) (self rhs : Optional T) :
    Res (Event T A) E (Optional T × Optional T) Unit :=
  assign_from_Optional C .lvalue self rhs

/-- Member `Optional& operator=(Optional&& rhs)`. -/
def assign_rvalue_Optional (C : Contained T A E) (self rhs : Optional T) :
    Res (Event T A) E (Optional T × Optional T) Unit :=
  assign_from_Optional C .rvalue self rhs

/-- Member `Optional() = default;`. -/
def Optional_default : Res (Event T A) E (Optional T) Unit :=
  .ret () Optional.init []

/-- Member `Optional(const T& value) { *this = value; }`. -/
def Optional_const_T (C : Contained T A E) (value : T) :
    Res (Event T A) E (Optional T × T) Unit :=
  assign_const_T C Optional.init value

/-- Member `Optional(T&& value) { *this = std::move(value); }`. -/
def Optional_rvalue_T (C : Contained T A E) (value : T) :
    Res (Event T A) E (Optional T × T) Unit :=
  assign_rvalue_T C Optional.init value

/-- The two constructors from a value, indexed by the category of the
argument. -/
def Optional_from_T (C : Contained T A E) (cat : ValueCategory) (value : T) :
    Res (Event T A) E (Optional T × T) Unit :=
  match cat with
  | .lvalue => Optional_const_T C value
  | .rvalue => Optional_rvalue_T C value

/-- Member `Optional(const Optional& other) { *this = other; }`. -/
def Optional_const_Optional (C : Contained T A E) (other : Optional T) :
    Res (Event T A) E (Optional T × Optional T) Unit :=
  assign_const_Optional C Optional.init other

/-- Member `Optional(Optional&& other) noexcept { *this = std::move(other); }`:
an exception that would leave a `noexcept` function calls `std::terminate`. -/
def Optional_rvalue_Optional (C : Contained T A E) (other : Optional T) :
    Res (Event T A) E (Optional T × Optional T) Unit :=
  match assign_rvalue_Optional C Optional.init other with
  | .raise _ _ tr => .terminate tr
  | r => r

/-- Member `~Optional() { Reset(); }`. -/
def Optional_destructor (self : Optional T) : Res (Event T A) E (Optional T) Unit :=
  Reset self

end Operations

/-- The contained type `int`: every operation copies the value and none
raises. -/
def intContained : Contained Int Int Empty where
  construct := fun a => .ok a
  copy_construct := fun v => .ok v
  move_construct := fun v => (.ok v, v)
  copy_assign := fun _ v => (none, v)
  move_assign := fun _ v => (none, v, v)

/-- A contained type holding a natural number whose constructors and
assignment operators refuse the value `0` by raising; a move leaves `0`
in its source. -/
def fussyContained : Contained Nat Nat Unit where
  construct := fun a => if a = 0 then .error () else .ok a
  copy_construct := fun v => if v = 0 then .error () else .ok v
  move_construct := fun v => if v = 0 then (.error (), v) else (.ok v, 0)
  copy_assign := fun old v => if v = 0 then (some (), old) else (none, v)
  move_assign := fun old v => if v = 0 then (some (), old, v) else (none, v, 0)

section Invariant

variable {T : Type}

/-- The shape every state built by the public operations has: `ptr_` is
non-null exactly when a `T` lives in `data_`, and then `is_initialized_`
is set. -/
def Optional.wf (o : Optional T) : Bool :=
  match o.ptr_, o.data_, o.is_initialized_ with
  | .null, none, _ => true
  | .data, some _, true => true
  | _, _, _ => false

end Invariant

section Refinement

variable {T A E : Type}

/-- Assignment from another Optional as the specification words it: when the
source `b` is engaged, assign the value of `b` (`a = b.Value()`, resp.
`a = std::move(b.Value())`); when `b` is disengaged, `a.Reset()`.  The state
is the pair (`a`, `b`). -/
def spec_assign_from_Optional (C : Contained T A E) (cat : ValueCategory)
    (a b : Optional T) : Res (Event T A) E (Optional T × Optional T) Unit :=
  match HasValue b with
  | true =>
    match (Value b : Res (Event T A) E (Optional T) T) with
    | .ret v b1 _ =>
      (assign_T C cat a v).mapState (fun p => (p.1, { b1 with data_ := some p.2 }))
    | .raise e b1 tr => .raise e (a, b1) tr
    | .terminate tr => .terminate tr
    | .ub => .ub
  | false => (Reset a).mapState (fun s => (s, b))

end Refinement

section Reachability

variable {T A E : Type}

/-- The state an outcome leaves behind, when the call returned or raised. -/
def Res.state? {Ev S R : Type} : Res Ev E S R → Option S
  | .ret _ s _ => some s
  | .raise _ s _ => some s
  | .terminate _ => none
  | .ub => none

/-- The states a caller can bring an Optional to.  It starts from the default
member initialisers (each constructor is an assignment run on them) and is
then subjected to the public mutators, each of which may return or raise; it
may also serve as the source of an assignment to another Optional, and the
caller may write to the held value through `operator*`. -/
inductive Reachable (C : Contained T A E) : Optional T → Prop where
  | init : Reachable C Optional.init
  | by_assign_T (cat : ValueCategory) (v : T) {o : Optional T} {s : Optional T × T} :
      Reachable C o → (assign_T C cat o v).state? = some s → Reachable C s.1
  | as_target (cat : ValueCategory) {o rhs : Optional T} {s : Optional T × Optional T} :
      Reachable C o → Reachable C rhs →
      (assign_from_Optional C cat o rhs).state? = some s → Reachable C s.1
  | as_source (cat : ValueCategory) {o rhs : Optional T} {s : Optional T × Optional T} :
      Reachable C o → Reachable C rhs →
      (assign_from_Optional C cat o rhs).state? = some s → Reachable C s.2
  | by_Reset {o s : Optional T} :
      Reachable C o →
      (Reset o : Res (Event T A) E (Optional T) Unit).state? = some s → Reachable C s
  | by_Emplace (args : A) {o s : Optional T} :
      Reachable C o → (Emplace C o args).state? = some s → Reachable C s
  | by_write (v2 : T) {o : Optional T} {v : T} :
      Reachable C o →
      (operator_star o : Res (Event T A) E (Optional T) T) = .ret v o [] →
      Reachable C { o with data_ := some v2 }

end Reachability

section Counting

variable {T A : Type}

/-- Number of constructor calls of `T` in a trace. -/
def ctor_calls (tr : List (Event T A)) : Nat := tr.countP Event.isCtor

/-- Number of assignment-operator calls of `T` in a trace. -/
def assign_calls (tr : List (Event T A)) : Nat := tr.countP Event.isAssign

/-- Number of destructor calls of `T` in a trace. -/
def dtor_calls (tr : List (Event T A)) : Nat := tr.countP Event.isDtor

end Counting

section Access

variable {T A E : Type}

/-- Member `T* operator->()` and its const overload: `return ptr_;`. -/
def operator_arrow (self : Optional T) : Res (Event T A) E (Optional T) Ptr :=
  .ret self.ptr_ self []

/-- What a pointer obtained from `operator->` points to in the object it
came from: nothing for `nullptr`, the contents of `data_` otherwise. -/
def Ptr.target (p : Ptr) (self : Optional T) : Option T :=
  match p with
  | .null => none
  | .data => self.data_

/-- The two constructors from an Optional, indexed by the category of the
argument. -/
def Optional_from_Optional (C : Contained T A E) (cat : ValueCategory)
    (other : Optional T) : Res (Event T A) E (Optional T × Optional T) Unit :=
  match cat with
  | .lvalue => Optional_const_Optional C other
  | .rvalue => Optional_rvalue_Optional C other

/-- The flag agrees with the storage: `is_initialized_` is set exactly when
`ptr_` is non-null, which is exactly when a `T` lives in `data_`. -/
def Optional.consistent (o : Optional T) : Bool :=
  match o.ptr_, o.data_, o.is_initialized_ with
  | .null, none, false => true
  | .data, some _, true => true
  | _, _, _ => false

end Access

section Lifetimes

variable {T A E : Type}

/-- A public mutator applied to one Optional.  The source of an assignment
from an Optional is another object, given by its state. -/
inductive Op (T A : Type) where
  | assign_T (cat : ValueCategory) (v : T) : Op T A
  | assign_Optional (cat : ValueCategory) (rhs : Optional T) : Op T A
  | Reset : Op T A
  | Emplace (args : A) : Op T A

/-- The outcome of a mutator for the Optional it is applied to. -/
def Op.apply (C : Contained T A E) (o : Optional T) :
    Op T A → Res (Event T A) E (Optional T) Unit
  | .assign_T cat v => (OptionalModel.assign_T C cat o v).mapState Prod.fst
  | .assign_Optional cat rhs => (assign_from_Optional C cat o rhs).mapState Prod.fst
  | .Reset => OptionalModel.Reset o
  | .Emplace args => OptionalModel.Emplace C o args

/-- A mutator whose Optional argument, if it has one, is in a consistent
state (so that reading it is defined). -/
def Op.source_ok : Op T A → Bool
  | .assign_Optional _ rhs => rhs.consistent
  | _ => true

/-- A caller runs mutators one after the other, carrying on after an
exception: the final state and the whole trace, or `none` when a call
terminated the program or had undefined behaviour. -/
def run (C : Contained T A E) : Optional T → List (Op T A) →
    Option (Optional T × List (Event T A))
  | o, [] => some (o, [])
  | o, op :: ops =>
    match op.apply C o with
    | .ret _ s tr => (run C s ops).map (fun r => (r.1, tr ++ r.2))
    | .raise _ s tr => (run C s ops).map (fun r => (r.1, tr ++ r.2))
    | .terminate _ => none
    | .ub => none

/-- Did the constructor call recorded by the event complete, so that an
object came to life?  False for the other events. -/
def Event.constructs (C : Contained T A E) : Event T A → Bool
  | .ctor_args a =>
    match C.construct a with
    | .ok _ => true
    | .error _ => false
  | .ctor_copy v =>
    match C.copy_construct v with
    | .ok _ => true
    | .error _ => false
  | .ctor_move v =>
    match (C.move_construct v).1 with
    | .ok _ => true
    | .error _ => false
  | _ => false

/-- Number of objects a trace brought to life. -/
def born (C : Contained T A E) (tr : List (Event T A)) : Nat :=
  tr.countP (Event.constructs C)

/-- Checks a trace against the lifetime rules of one storage, `live` telling
whether an object lives in it: a destructor or an assignment needs a live
object, a constructor needs an empty storage.  The result is whether an
object lives there at the end, or `none` when a rule was broken. -/
def replay (C : Contained T A E) : Bool → List (Event T A) → Option Bool
  | live, [] => some live
  | live, .dtor _ :: rest => if live then replay C false rest else none
  | live, .assign_copy _ _ :: rest => if live then replay C true rest else none
  | live, .assign_move _ _ :: rest => if live then replay C true rest else none
  | live, .ctor_args a :: rest =>
    if live then none else replay C (Event.constructs C (.ctor_args a)) rest
  | live, .ctor_copy v :: rest =>
    if live then none else replay C (Event.constructs C (.ctor_copy v)) rest
  | live, .ctor_move v :: rest =>
    if live then none else replay C (Event.constructs C (.ctor_move v)) rest

end Lifetimes

section SelfAssignment

variable {T A E : Type}

/-- The expression `*ptr_ = std::forward<Value>(value)` when `value` is
`*ptr_` itself, the live value being `old`.  What T does when assigned to
itself is the parameter `self_assign` (for either category: the error if it
raised, and the object afterwards); a function of two separate values cannot
say it. -/
def assign_self_forwarded (self_assign : ValueCategory → T → Option E × T)
    (cat : ValueCategory) (old : T) : Option E × T × Event T A :=
  match cat with
  | .lvalue => ((self_assign .lvalue old).1, (self_assign .lvalue old).2, .assign_copy old old)
  | .rvalue => ((self_assign .rvalue old).1, (self_assign .rvalue old).2, .assign_move old old)

/-- Member `void Forward(Value&& value)` when `value` refers to `*ptr_` of
the very object.  With a null `ptr_` the reference was made by dereferencing
`nullptr`. -/
def Forward_self (self_assign : ValueCategory → T → Option E × T) (cat : ValueCategory)
    (self : Optional T) : Res (Event T A) E (Optional T) Unit :=
  match self.ptr_ with
  | .null => .ub
  | .data =>
    match self.data_ with
    | none => .ub
    | some old =>
      match (assign_self_forwarded self_assign cat old : Option E × T × Event T A) with
      | (none, new, ev) =>
        .ret () { self with data_ := some new, is_initialized_ := true } [ev]
      | (some e, new, ev) =>
        .raise (.contained e) { self with data_ := some new } [ev]

/-- The two `Optional` assignments when `rhs` is `*this` (`a = a` and
`a = std::move(a)`):
`if (rhs.HasValue()) Forward(<forwarded> rhs.Value()); else Reset();`. -/
def assign_from_self (self_assign : ValueCategory → T → Option E × T) (cat : ValueCategory)
    (self : Optional T) : Res (Event T A) E (Optional T) Unit :=
  if HasValue self then
    match (Value self : Res (Event T A) E (Optional T) T) with
    | .ret _ self1 _ => Forward_self self_assign cat self1
    | .raise e self1 tr => .raise e self1 tr
    | .terminate tr => .terminate tr
    | .ub => .ub
  else
    Reset self

/-- Self-assignment of `int`: the value stays and nothing raises. -/
def int_self_assign : ValueCategory → Int → Option Empty × Int :=
  fun _ v => (none, v)

/-- Self-assignment of the raising type: the value stays and nothing
raises. -/
def fussy_self_assign : ValueCategory → Nat → Option Unit × Nat :=
  fun _ v => (none, v)

end SelfAssignment

section Placed

variable {T A E : Type}

/-!
Several Optional objects side by side.  Here `ptr_` is kept as an address:
the index of the object into whose `data_` it points, so that a pointer into
the storage of another object can be told from one into the own storage.
-/

/-- The members of an Optional that lives in a memory: `ptr_` is `none` for
`nullptr`, or `some a` when it points at the `data_` of the object at `a`. -/
structure Placed (T : Type) where
  data_ : Option T
  is_initialized_ : Bool
  ptr_ : Option Nat

/-- The Optional objects of a program, by address. -/
abbrev Memory (T : Type) := Nat → Placed T

/-- The memory with the object at `a` replaced. -/
def Memory.write (m : Memory T) (a : Nat) (x : Placed T) : Memory T :=
  fun i => if i = a then x else m i

/-- The default member initialisers, for an object in memory. -/
def Placed.init : Placed T :=
  { data_ := none, is_initialized_ := false, ptr_ := none }

/-- Member `bool HasValue() const` of the object at `this`. -/
def HasValue_at (m : Memory T) (this : Nat) : Bool :=
  (m this).is_initialized_

/-- Member `T& operator*()` of the object at `this`: `return *ptr_;`. -/
def operator_star_at (m : Memory T) (this : Nat) : Res (Event T A) E (Memory T) T :=
  match (m this).ptr_ with
  | none => .ub
  | some a =>
    match (m a).data_ with
    | none => .ub
    | some v => .ret v m []

/-- Member `T& Value()` of the object at `this`. -/
def Value_at (m : Memory T) (this : Nat) : Res (Event T A) E (Memory T) T :=
  if !(m this).is_initialized_ then
    .raise .BadOptionalAccess m []
  else
    operator_star_at m this

/-- The block `if (ptr_ != nullptr) { ptr_->~T(); ptr_ = nullptr; }` in the
object at `this`: the destructor runs on what `ptr_` points at. -/
def destroy_held_at (m : Memory T) (this : Nat) : Option (Memory T × List (Event T A)) :=
  match (m this).ptr_ with
  | some a =>
    match (m a).data_ with
    | none => none
    | some v =>
      some (((m.write a { m a with data_ := none }).write this
        { (m.write a { m a with data_ := none }) this with ptr_ := none }), [.dtor v])
  | none => some (m, [])

/-- Member `void Reset()` of the object at `this`. -/
def Reset_at (m : Memory T) (this : Nat) : Res (Event T A) E (Memory T) Unit :=
  match destroy_held_at m this with
  | none => .ub
  | some (m1, tr) => .ret () (m1.write this { m1 this with is_initialized_ := false }) tr

/-- Member `void Emplace(Ts&& ... ts)` of the object at `this`: the placement
new builds in the own `data_` and `ptr_` receives its address. -/
def Emplace_at (C : Contained T A E) (m : Memory T) (this : Nat) (args : A) :
    Res (Event T A) E (Memory T) Unit :=
  match destroy_held_at m this with
  | none => .ub
  | some (m1, tr) =>
    match C.construct args with
    | .ok w =>
      .ret () (m1.write this
        { m1 this with data_ := some w, ptr_ := some this, is_initialized_ := true })
        (tr ++ [.ctor_args args])
    | .error e =>
      .raise (.contained e) (m1.write this { m1 this with data_ := none })
        (tr ++ [.ctor_args args])

/-- Member `void Forward(Value&& value)` of the object at `this`, for an
argument that is not one of the objects of the memory.  The placement new
builds in the own `data_`; the assignment goes to what `ptr_` points at. -/
def Forward_at (C : Contained T A E) (cat : ValueCategory) (m : Memory T) (this : Nat)
    (value : T) : Res (Event T A) E (Memory T × T) Unit :=
  match (m this).ptr_ with
  | none =>
    match construct_forwarded C cat value with
    | (.ok w, value2, ev) =>
      .ret () (m.write this
        { m this with data_ := some w, ptr_ := some this, is_initialized_ := true }, value2) [ev]
    | (.error e, value2, ev) =>
      .raise (.contained e) (m.write this { m this with data_ := none }, value2) [ev]
  | some a =>
    match (m a).data_ with
    | none => .ub
    | some old =>
      match assign_forwarded C cat old value with
      | (none, new, value2, ev) =>
        .ret () (((m.write a { m a with data_ := some new }).write this
          { (m.write a { m a with data_ := some new }) this with is_initialized_ := true }),
          value2) [ev]
      | (some e, new, value2, ev) =>
        .raise (.contained e) (m.write a { m a with data_ := some new }, value2) [ev]

/-- Members `Optional& operator=(const T&)` and `Optional& operator=(T&&)` of
the object at `this`. -/
def assign_T_at (C : Contained T A E) (cat : ValueCategory) (m : Memory T) (this : Nat)
    (value : T) : Res (Event T A) E (Memory T × T) Unit :=
  Forward_at C cat m this value

/-- Member `Optional& operator=(const Optional& rhs)` of the object at
`this`, `rhs` being the object at another address.  The value of `rhs` is
read through its `ptr_`; copying leaves it as it is. -/
def assign_const_Optional_at (C : Contained T A E) (m : Memory T) (this rhs : Nat) :
    Res (Event T A) E (Memory T) Unit :=
  if HasValue_at m rhs then
    match (Value_at m rhs : Res (Event T A) E (Memory T) T) with
    | .ret v _ _ => (Forward_at C .lvalue m this v).mapState Prod.fst
    | .raise e m1 tr => .raise e m1 tr
    | .terminate tr => .terminate tr
    | .ub => .ub
  else
    Reset_at m this

/-- Member `Optional(const T& value) { *this = value; }` and its rvalue
form, building the object at `this`. -/
def Optional_from_T_at (C : Contained T A E) (cat : ValueCategory) (m : Memory T)
    (this : Nat) (value : T) : Res (Event T A) E (Memory T × T) Unit :=
  assign_T_at C cat (m.write this Placed.init) this value

/-- Member `Optional(const Optional& other) { *this = other; }`, building
the object at `this` from the object at `other`. -/
def Optional_const_Optional_at (C : Contained T A E) (m : Memory T) (this other : Nat) :
    Res (Event T A) E (Memory T) Unit :=
  assign_const_Optional_at C (m.write this Placed.init) this other

/-- The caller changes the held value through the reference `*a` of the
object at `this`, to `v2`. -/
def write_through_at (m : Memory T) (this : Nat) (v2 : T) :
    Res (Event T A) E (Memory T) Unit :=
  match (m this).ptr_ with
  | none => .ub
  | some a =>
    match (m a).data_ with
    | none => .ub
    | some _ => .ret () (m.write a { m a with data_ := some v2 }) []

/-- What a caller can do to one Optional without naming another: assign a
value, Reset, Emplace, change the held value through `operator*`. -/
inductive Mutation (T A : Type) where
  | assign_T (cat : ValueCategory) (v : T) : Mutation T A
  | Reset : Mutation T A
  | Emplace (args : A) : Mutation T A
  | write (v2 : T) : Mutation T A

/-- The outcome of a mutation of the object at `this`, for the memory. -/
def Mutation.apply_at (C : Contained T A E) (m : Memory T) (this : Nat) :
    Mutation T A → Res (Event T A) E (Memory T) Unit
  | .assign_T cat v => (assign_T_at C cat m this v).mapState Prod.fst
  | .Reset => Reset_at m this
  | .Emplace args => Emplace_at C m this args
  | .write v2 => write_through_at m this v2

/-- The `ptr_` of the object at `this` is null or points into its own
`data_`. -/
def owns_at (m : Memory T) (this : Nat) : Bool :=
  match (m this).ptr_ with
  | none => true
  | some a => a == this

/-- A caller applies mutations to the object at `this` one after the other,
carrying on after an exception: the memory at the end, or `none` when a call
terminated the program or had undefined behaviour. -/
def run_at (C : Contained T A E) : Memory T → Nat → List (Mutation T A) → Option (Memory T)
  | m, _, [] => some m
  | m, this, mu :: mus =>
    match (mu.apply_at C m this).state? with
    | some m1 => run_at C m1 this mus
    | none => none

/-- The object at `this`, seen as a single Optional whose `ptr_` is null or
points into its own storage. -/
def Memory.view (m : Memory T) (this : Nat) : Optional T :=
  { data_ := (m this).data_
    is_initialized_ := (m this).is_initialized_
    ptr_ := match (m this).ptr_ with
      | none => .null
      | some _ => .data }

/-- A memory in which no object has been built yet. -/
def Memory.raw : Memory T := fun _ => Placed.init

end Placed

section Theorems

variable {T A E : Type}

/-- A well-formed state is one of two kinds: null pointer over raw storage,
or pointer to a live value with the flag set. -/
theorem wf_cases (o : Optional T) (h : o.wf = true) :
    (o.ptr_ = .null ∧ o.data_ = none) ∨
    (∃ v, o.ptr_ = .data ∧ o.data_ = some v ∧ o.is_initialized_ = true) := by
  rcases o with ⟨d, i, p⟩
  cases p <;> cases d <;> cases i <;> simp_all [Optional.wf]

/-- The initial state is well formed. -/
theorem init_wf : (Optional.init : Optional T).wf = true := rfl

/-- The operation `Reset` returns on every well-formed state, and the state it leaves is
the initial one. -/
theorem Reset_of_wf (o : Optional T) (h : o.wf = true) :
    ∃ tr, (Reset o : Res (Event T A) E (Optional T) Unit) = .ret () Optional.init tr := by
  rcases wf_cases o h with ⟨hp, hd⟩ | ⟨v, hp, hd, _⟩
  · refine ⟨[], ?_⟩
    rcases o with ⟨d, i, p⟩
    simp only at hp hd
    subst hp hd
    rfl
  · refine ⟨[.dtor v], ?_⟩
    rcases o with ⟨d, i, p⟩
    simp only at hp hd
    subst hp hd
    rfl

/-- The operation `Emplace` keeps states well formed, whether it returns or raises. -/
theorem Emplace_wf (C : Contained T A E) (o : Optional T) (a : A) (h : o.wf = true) :
    (∀ r s tr, Emplace C o a = .ret r s tr → s.wf = true) ∧
    (∀ e s tr, Emplace C o a = .raise e s tr → s.wf = true) := by
  rcases o with ⟨d, i, p⟩
  rcases wf_cases _ h with ⟨hp, hd⟩ | ⟨v, hp, hd, hi⟩ <;>
    simp only at hp hd <;> subst hp hd <;>
    simp only [Emplace, destroy_held] <;>
    cases C.construct a <;> simp [Optional.wf]

/-- The operation `Forward` keeps states well formed, whether it returns or raises. -/
theorem Forward_wf (C : Contained T A E) (cat : ValueCategory) (o : Optional T) (v : T)
    (h : o.wf = true) :
    (∀ r s tr, Forward C cat o v = .ret r s tr → s.1.wf = true) ∧
    (∀ e s tr, Forward C cat o v = .raise e s tr → s.1.wf = true) := by
  rcases o with ⟨d, i, p⟩
  rcases wf_cases _ h with ⟨hp, hd⟩ | ⟨old, hp, hd, hi⟩
  · simp only at hp hd
    subst hp hd
    simp only [Forward]
    rcases construct_forwarded C cat v with ⟨r, v2, ev⟩
    cases r <;> simp [Optional.wf]
  · simp only at hp hd hi
    subst hp hd hi
    simp only [Forward]
    rcases assign_forwarded C cat old v with ⟨r, new, v2, ev⟩
    cases r <;> simp [Optional.wf]

/-- Assignment from another Optional keeps both objects well formed, whether
it returns or raises. -/
theorem assign_from_Optional_wf (C : Contained T A E) (cat : ValueCategory)
    (a b : Optional T) (ha : a.wf = true) (hb : b.wf = true)
    (s : Optional T × Optional T) (hs : (assign_from_Optional C cat a b).state? = some s) :
    s.1.wf = true ∧ s.2.wf = true := by
  unfold assign_from_Optional at hs
  cases hv : HasValue b
  · rw [hv] at hs
    obtain ⟨tr, htr⟩ := Reset_of_wf (A := A) (E := E) a ha
    simp only [Bool.false_eq_true, if_false, htr, Res.mapState, Res.state?,
      Option.some.injEq] at hs
    subst hs
    exact ⟨rfl, hb⟩
  · rw [hv] at hs
    simp only [if_true] at hs
    rcases b with ⟨d, i, p⟩
    simp only [HasValue] at hv
    subst hv
    rcases wf_cases _ hb with ⟨hp, hd⟩ | ⟨v, hp, hd, _⟩
    · simp only at hp hd
      subst hp hd
      simp [Value, operator_star, Res.state?] at hs
    · simp only at hp hd
      subst hp hd
      simp only [Value, operator_star, Bool.not_true, Bool.false_eq_true, if_false] at hs
      have hF := Forward_wf C cat a v ha
      cases hr : Forward C cat a v with
      | ret r t tr =>
        rw [hr] at hs
        simp only [Res.mapState, Res.state?, Option.some.injEq] at hs
        subst hs
        exact ⟨hF.1 r t tr hr, rfl⟩
      | raise e t tr =>
        rw [hr] at hs
        simp only [Res.mapState, Res.state?, Option.some.injEq] at hs
        subst hs
        exact ⟨hF.2 e t tr hr, rfl⟩
      | terminate tr => rw [hr] at hs; simp [Res.mapState, Res.state?] at hs
      | ub => rw [hr] at hs; simp [Res.mapState, Res.state?] at hs

/-- Every reachable state is well formed. -/
theorem Reachable_is_wf (C : Contained T A E) {o : Optional T} (h : Reachable C o) :
    o.wf = true := by
  induction h with
  | init => rfl
  | @by_assign_T cat v o s _ hs ih =>
    have hT : assign_T C cat o v = Forward C cat o v := by cases cat <;> rfl
    rw [hT] at hs
    have hF := Forward_wf C cat o v ih
    cases hr : Forward C cat o v with
    | ret r t tr =>
      rw [hr] at hs
      simp only [Res.state?, Option.some.injEq] at hs
      subst hs
      exact hF.1 r t tr hr
    | raise e t tr =>
      rw [hr] at hs
      simp only [Res.state?, Option.some.injEq] at hs
      subst hs
      exact hF.2 e t tr hr
    | terminate tr => rw [hr] at hs; simp [Res.state?] at hs
    | ub => rw [hr] at hs; simp [Res.state?] at hs
  | @as_target cat o rhs s _ _ hs iha ihb =>
    exact (assign_from_Optional_wf C cat _ _ iha ihb _ hs).1
  | @as_source cat o rhs s _ _ hs iha ihb =>
    exact (assign_from_Optional_wf C cat _ _ iha ihb _ hs).2
  | @by_Reset o s _ hs ih =>
    obtain ⟨tr, htr⟩ := Reset_of_wf (A := A) (E := E) o ih
    rw [htr] at hs
    simp only [Res.state?, Option.some.injEq] at hs
    subst hs
    rfl
  | @by_Emplace args o s _ hs ih =>
    have hE := Emplace_wf C o args ih
    cases hr : Emplace C o args with
    | ret r t tr =>
      rw [hr] at hs
      simp only [Res.state?, Option.some.injEq] at hs
      subst hs
      exact hE.1 r t tr hr
    | raise e t tr =>
      rw [hr] at hs
      simp only [Res.state?, Option.some.injEq] at hs
      subst hs
      exact hE.2 e t tr hr
    | terminate tr => rw [hr] at hs; simp [Res.state?] at hs
    | ub => rw [hr] at hs; simp [Res.state?] at hs
  | @by_write v2 o v _ hs ih =>
    rcases o with ⟨d, i, p⟩
    rcases wf_cases _ ih with ⟨hp, hd⟩ | ⟨old, hp, hd, hi⟩
    · simp only at hp hd
      subst hp hd
      simp [operator_star] at hs
    · simp only at hp hd hi
      subst hp hd hi
      rfl

/-- C2: a default-constructed Optional is disengaged. Default construction
returns normally for every contained type, invokes no operation of T (so no
constructor), and the object it yields has HasValue() false and a Value()
that raises BadOptionalAccess. -/
theorem C2_default_constructed_is_disengaged :
    ∃ o : Optional T,
      (Optional_default : Res (Event T A) E (Optional T) Unit) = .ret () o [] ∧
      HasValue o = false ∧
      (Value o : Res (Event T A) E (Optional T) T) = .raise .BadOptionalAccess o [] :=
  ⟨Optional.init, rfl, rfl, rfl⟩

/-- C3: constructing an Optional from a value v, by copy or by move, when
the construction of T from v succeeds with the value w (the copy of v),
returns an engaged Optional: HasValue() is true and Value() returns w. The
only T operation invoked is that one construction. -/
theorem C3_construct_from_value (C : Contained T A E) (cat : ValueCategory) (v w : T)
    (h : (construct_forwarded C cat v).1 = .ok w) :
    ∃ (o : Optional T) (v2 : T),
      Optional_from_T C cat v = .ret () (o, v2) [(construct_forwarded C cat v).2.2] ∧
      HasValue o = true ∧
      (Value o : Res (Event T A) E (Optional T) T) = .ret w o [] := by
  refine ⟨{ data_ := some w, is_initialized_ := true, ptr_ := .data },
    (construct_forwarded C cat v).2.1, ?_, rfl, rfl⟩
  cases cat <;>
    simp only [Optional_from_T, Optional_const_T, Optional_rvalue_T, assign_const_T,
      assign_rvalue_T, Forward, Optional.init] <;>
    (rcases hc : construct_forwarded C _ v with ⟨r, v2, ev⟩
     rw [hc] at h
     simp only at h
     subst h
     rfl)

/-- C3 at `Optional<int>(10)`: the copy of 10 is 10, and Value() returns 10. -/
theorem C3_construct_from_value_witness :
    (construct_forwarded intContained .lvalue (10 : Int)).1 = .ok 10 ∧
    ∃ (o : Optional Int) (v2 : Int),
      Optional_from_T intContained .lvalue 10
        = .ret () (o, v2) [(construct_forwarded intContained .lvalue 10).2.2] ∧
      HasValue o = true ∧
      (Value o : Res (Event Int Int) Empty (Optional Int) Int) = .ret 10 o [] :=
  ⟨rfl, C3_construct_from_value intContained .lvalue 10 10 rfl⟩

/-- C4: assigning a value v (by copy or by move) to a well-formed Optional.
If no value is held, the call invokes exactly one construction of T from v,
no assignment and no destructor; if a value `old` is held, it invokes exactly
one T assignment on `old`, no construction and no destructor. When that T
operation succeeds the Optional is engaged afterwards and Value() returns the
constructed, resp. assigned, value. -/
theorem C4_value_assignment (C : Contained T A E) (cat : ValueCategory)
    (o : Optional T) (v : T) (hwf : o.wf = true) :
    (o.data_ = none →
      (assign_T C cat o v).trace = [(construct_forwarded C cat v).2.2] ∧
      ctor_calls (assign_T C cat o v).trace = 1 ∧
      assign_calls (assign_T C cat o v).trace = 0 ∧
      dtor_calls (assign_T C cat o v).trace = 0 ∧
      ∀ w, (construct_forwarded C cat v).1 = .ok w →
        ∃ (o2 : Optional T) (v2 : T) (tr : List (Event T A)),
          assign_T C cat o v = .ret () (o2, v2) tr ∧ HasValue o2 = true ∧
          (Value o2 : Res (Event T A) E (Optional T) T) = .ret w o2 []) ∧
    (∀ old, o.data_ = some old →
      (assign_T C cat o v).trace = [(assign_forwarded C cat old v).2.2.2] ∧
      ctor_calls (assign_T C cat o v).trace = 0 ∧
      assign_calls (assign_T C cat o v).trace = 1 ∧
      dtor_calls (assign_T C cat o v).trace = 0 ∧
      ((assign_forwarded C cat old v).1 = none →
        ∃ (o2 : Optional T) (v2 : T) (tr : List (Event T A)),
          assign_T C cat o v = .ret () (o2, v2) tr ∧ HasValue o2 = true ∧
          (Value o2 : Res (Event T A) E (Optional T) T)
            = .ret (assign_forwarded C cat old v).2.1 o2 [])) := by
  have hT : assign_T C cat o v = Forward C cat o v := by cases cat <;> rfl
  rw [hT]
  rcases o with ⟨d, i, p⟩
  rcases wf_cases _ hwf with ⟨hp, hd⟩ | ⟨old, hp, hd, hi⟩
  · simp only at hp hd
    subst hp hd
    refine ⟨fun _ => ?_, fun old h => by simp at h⟩
    simp only [Forward]
    cases cat <;> simp only [construct_forwarded]
    · cases hc : C.copy_construct v <;>
        simp [Res.trace, ctor_calls, assign_calls, dtor_calls, Event.isCtor,
          Event.isAssign, Event.isDtor, HasValue, Value, operator_star]
    · cases hc : (C.move_construct v).1 <;>
        simp [Res.trace, ctor_calls, assign_calls, dtor_calls, Event.isCtor,
          Event.isAssign, Event.isDtor, HasValue, Value, operator_star]
  · simp only at hp hd hi
    subst hp hd hi
    refine ⟨fun h => by simp at h, fun old2 h => ?_⟩
    simp only [Option.some.injEq] at h
    subst h
    simp only [Forward]
    cases cat <;> simp only [assign_forwarded]
    · cases hc : (C.copy_assign old v).1 <;>
        simp [Res.trace, ctor_calls, assign_calls, dtor_calls, Event.isCtor,
          Event.isAssign, Event.isDtor, HasValue, Value, operator_star]
    · cases hc : (C.move_assign old v).1 <;>
        simp [Res.trace, ctor_calls, assign_calls, dtor_calls, Event.isCtor,
          Event.isAssign, Event.isDtor, HasValue, Value, operator_star]

/-- C4 at `Optional<int> a(3); a = 5;`: the target holds 3, so the call is one
assignment `3 = 5` and Value() then returns 5. -/
theorem C4_value_assignment_witness :
    (({ data_ := some 3, is_initialized_ := true, ptr_ := .data } : Optional Int).wf = true) ∧
    (assign_T intContained .lvalue
        ({ data_ := some 3, is_initialized_ := true, ptr_ := .data } : Optional Int) 5).trace
      = [.assign_copy 3 5] ∧
    ∃ (o2 : Optional Int) (v2 : Int) (tr : List (Event Int Int)),
      assign_T intContained .lvalue
          ({ data_ := some 3, is_initialized_ := true, ptr_ := .data } : Optional Int) 5
        = .ret () (o2, v2) tr ∧ HasValue o2 = true ∧
      (Value o2 : Res (Event Int Int) Empty (Optional Int) Int) = .ret 5 o2 [] :=
  ⟨rfl,
   ((C4_value_assignment intContained .lvalue
      ({ data_ := some 3, is_initialized_ := true, ptr_ := .data } : Optional Int) 5 rfl).2
      3 rfl).1,
   ((C4_value_assignment intContained .lvalue
      ({ data_ := some 3, is_initialized_ := true, ptr_ := .data } : Optional Int) 5 rfl).2
      3 rfl).2.2.2.2 rfl⟩

/-- C5: assignment from another Optional b, by copy or by move, is the same
computation as the specification describes: assigning the value of b when b
is engaged and Reset() when b is disengaged. In the second case a well-formed
target ends disengaged whatever it held, and b is untouched. -/
theorem C5_assign_from_Optional_refines (C : Contained T A E) (cat : ValueCategory)
    (a b : Optional T) :
    assign_from_Optional C cat a b = spec_assign_from_Optional C cat a b ∧
    (cat = .lvalue → assign_const_Optional C a b = spec_assign_from_Optional C cat a b) ∧
    (cat = .rvalue → assign_rvalue_Optional C a b = spec_assign_from_Optional C cat a b) ∧
    (∀ v, HasValue b = true → b.ptr_ = .data → b.data_ = some v →
      assign_from_Optional C cat a b
        = (assign_T C cat a v).mapState (fun p => (p.1, { b with data_ := some p.2 }))) ∧
    (HasValue b = false →
      assign_from_Optional C cat a b = (Reset a).mapState (fun s => (s, b)) ∧
      (a.wf = true →
        ∃ (a2 : Optional T) (tr : List (Event T A)),
          assign_from_Optional C cat a b = .ret () (a2, b) tr ∧ HasValue a2 = false)) := by
  have hT : ∀ v, assign_T C cat a v = Forward C cat a v := by
    intro v; cases cat <;> rfl
  have hspec : assign_from_Optional C cat a b = spec_assign_from_Optional C cat a b := by
    unfold assign_from_Optional spec_assign_from_Optional
    cases hb : HasValue b
    · simp
    · simp only [if_true]
      cases hv : (Value b : Res (Event T A) E (Optional T) T) <;> simp [hT]
  refine ⟨hspec, ?_, ?_, ?_, ?_⟩
  · intro hc; subst hc; exact hspec
  · intro hc; subst hc; exact hspec
  · intro v hb hp hd
    have hv : (Value b : Res (Event T A) E (Optional T) T) = .ret v b [] := by
      simp only [HasValue] at hb
      simp [Value, operator_star, hb, hp, hd]
    simp [assign_from_Optional, hb, hv, hT]
  · intro hb
    have hr : assign_from_Optional C cat a b = (Reset a).mapState (fun s => (s, b)) := by
      simp [assign_from_Optional, hb]
    refine ⟨hr, fun hwf => ?_⟩
    obtain ⟨tr, htr⟩ := Reset_of_wf (A := A) (E := E) a hwf
    exact ⟨Optional.init, tr, by rw [hr, htr]; rfl, rfl⟩

/-- C5 at a move assignment into a default-constructed Optional from an
engaged Optional holding 7: it is the move assignment of the value 7. -/
theorem C5_assign_from_Optional_refines_witness :
    (HasValue ({ data_ := some 7, is_initialized_ := true, ptr_ := .data } : Optional Nat) = true ∧
     ({ data_ := some 7, is_initialized_ := true, ptr_ := .data } : Optional Nat).ptr_ = .data ∧
     ({ data_ := some 7, is_initialized_ := true, ptr_ := .data } : Optional Nat).data_ = some 7) ∧
    assign_from_Optional fussyContained .rvalue Optional.init
        ({ data_ := some 7, is_initialized_ := true, ptr_ := .data } : Optional Nat)
      = (assign_T fussyContained .rvalue Optional.init 7).mapState
          (fun p => (p.1, { ({ data_ := some 7, is_initialized_ := true, ptr_ := .data } :
            Optional Nat) with data_ := some p.2 })) :=
  ⟨⟨rfl, rfl, rfl⟩,
   (C5_assign_from_Optional_refines fussyContained .rvalue Optional.init
      ({ data_ := some 7, is_initialized_ := true, ptr_ := .data } : Optional Nat)).2.2.2.1
      7 rfl rfl rfl⟩

/-- C6: Reset() on an engaged Optional holding v invokes the destructor of v
exactly once (and nothing else) and leaves the Optional disengaged: HasValue()
is false and a following Value() raises BadOptionalAccess. For every int n and
either form of assignment, the scenario default-construct; assign n; Reset();
Value() has HasValue() true and `*a == n` after the assignment, HasValue()
false after the Reset and ends in BadOptionalAccess. -/
theorem C6_reset_engaged (o : Optional T) (v : T) (n : Int) (cat : ValueCategory)
    (hi : HasValue o = true) (hp : o.ptr_ = .data) (hd : o.data_ = some v) :
    (∃ o2 : Optional T,
      (Reset o : Res (Event T A) E (Optional T) Unit) = .ret () o2 [.dtor v] ∧
      dtor_calls ((Reset o : Res (Event T A) E (Optional T) Unit).trace) = 1 ∧
      HasValue o2 = false ∧
      (Value o2 : Res (Event T A) E (Optional T) T) = .raise .BadOptionalAccess o2 []) ∧
    (∃ (a0 a1 a2 : Optional Int) (tr : List (Event Int Int)),
      (Optional_default : Res (Event Int Int) Empty (Optional Int) Unit) = .ret () a0 [] ∧
      HasValue a0 = false ∧
      assign_T intContained cat a0 n = .ret () (a1, n) tr ∧
      HasValue a1 = true ∧
      (operator_star a1 : Res (Event Int Int) Empty (Optional Int) Int) = .ret n a1 [] ∧
      (Reset a1 : Res (Event Int Int) Empty (Optional Int) Unit) = .ret () a2 [.dtor n] ∧
      HasValue a2 = false ∧
      (Value a2 : Res (Event Int Int) Empty (Optional Int) Int)
        = .raise .BadOptionalAccess a2 []) := by
  constructor
  · rcases o with ⟨d, i, p⟩
    simp only at hp hd
    subst hp hd
    exact ⟨Optional.init, rfl, rfl, rfl, rfl⟩
  · refine ⟨Optional.init, { data_ := some n, is_initialized_ := true, ptr_ := .data },
      Optional.init, ?_⟩
    cases cat
    · exact ⟨[.ctor_copy n], rfl, rfl, rfl, rfl, rfl, rfl, rfl, rfl⟩
    · exact ⟨[.ctor_move n], rfl, rfl, rfl, rfl, rfl, rfl, rfl, rfl⟩

/-- C6 at the specification's scenario, `Optional<int> a; a = 5; a.Reset();`. -/
theorem C6_reset_engaged_witness :
    HasValue ({ data_ := some 5, is_initialized_ := true, ptr_ := .data } : Optional Int) = true ∧
    (∃ o2 : Optional Int,
      (Reset ({ data_ := some 5, is_initialized_ := true, ptr_ := .data } : Optional Int) :
        Res (Event Int Int) Empty (Optional Int) Unit) = .ret () o2 [.dtor 5] ∧
      dtor_calls ((Reset ({ data_ := some 5, is_initialized_ := true, ptr_ := .data } :
        Optional Int) : Res (Event Int Int) Empty (Optional Int) Unit).trace) = 1 ∧
      HasValue o2 = false ∧
      (Value o2 : Res (Event Int Int) Empty (Optional Int) Int)
        = .raise .BadOptionalAccess o2 []) :=
  ⟨rfl, (C6_reset_engaged (A := Int) (E := Empty)
      ({ data_ := some 5, is_initialized_ := true, ptr_ := .data } : Optional Int)
      5 5 .rvalue rfl rfl rfl).1⟩

/-- C7: on a well-formed Optional whose HasValue() is false, Reset() changes
nothing and invokes no operation of T (so no destructor), and HasValue() is
still false. On every well-formed Optional, Reset() returns, and a second
Reset() leaves the state the first one left, invoking nothing. -/
theorem C7_reset_disengaged_noop_and_idempotent (o : Optional T) (hwf : o.wf = true) :
    (HasValue o = false →
      (Reset o : Res (Event T A) E (Optional T) Unit) = .ret () o [] ∧
      dtor_calls ((Reset o : Res (Event T A) E (Optional T) Unit).trace) = 0) ∧
    (∃ (s : Optional T) (tr : List (Event T A)),
      (Reset o : Res (Event T A) E (Optional T) Unit) = .ret () s tr ∧
      HasValue s = false ∧
      (Reset s : Res (Event T A) E (Optional T) Unit) = .ret () s []) := by
  constructor
  · intro hv
    rcases o with ⟨d, i, p⟩
    simp only [HasValue] at hv
    subst hv
    rcases wf_cases _ hwf with ⟨hp, hd⟩ | ⟨v, hp, hd, hi⟩
    · simp only at hp hd
      subst hp hd
      exact ⟨rfl, rfl⟩
    · simp at hi
  · obtain ⟨tr, htr⟩ := Reset_of_wf (A := A) (E := E) o hwf
    exact ⟨Optional.init, tr, htr, rfl, rfl⟩

/-- C7 at a default-constructed `Optional<int>`. -/
theorem C7_reset_disengaged_noop_and_idempotent_witness :
    (Optional.init : Optional Int).wf = true ∧
    HasValue (Optional.init : Optional Int) = false ∧
    (Reset (Optional.init : Optional Int) : Res (Event Int Int) Empty (Optional Int) Unit)
      = .ret () Optional.init [] :=
  ⟨rfl, rfl,
   ((C7_reset_disengaged_noop_and_idempotent (A := Int) (E := Empty)
      (Optional.init : Optional Int) rfl).1 rfl).1⟩

/-- C8: on every well-formed Optional, engaged or not, when constructing T
from args succeeds with the value w, Emplace(args...) returns, the Optional is
engaged afterwards and Value() returns w, the value T builds from args. -/
theorem C8_emplace_round_trip (C : Contained T A E) (o : Optional T) (args : A) (w : T)
    (hwf : o.wf = true) (hc : C.construct args = .ok w) :
    ∃ (o2 : Optional T) (tr : List (Event T A)),
      Emplace C o args = .ret () o2 tr ∧ HasValue o2 = true ∧
      (Value o2 : Res (Event T A) E (Optional T) T) = .ret w o2 [] := by
  rcases o with ⟨d, i, p⟩
  rcases wf_cases _ hwf with ⟨hp, hd⟩ | ⟨v, hp, hd, hi⟩
  · simp only at hp hd
    subst hp hd
    exact ⟨{ data_ := some w, is_initialized_ := true, ptr_ := .data }, [.ctor_args args],
      by simp [Emplace, destroy_held, hc], rfl, rfl⟩
  · simp only at hp hd
    subst hp hd
    exact ⟨{ data_ := some w, is_initialized_ := true, ptr_ := .data },
      [.dtor v, .ctor_args args], by simp [Emplace, destroy_held, hc], rfl, rfl⟩

/-- C8 at `Optional<int> a(3); a.Emplace(9);`: Value() returns 9. -/
theorem C8_emplace_round_trip_witness :
    (({ data_ := some 3, is_initialized_ := true, ptr_ := .data } : Optional Int).wf = true) ∧
    intContained.construct 9 = .ok 9 ∧
    ∃ (o2 : Optional Int) (tr : List (Event Int Int)),
      Emplace intContained
          ({ data_ := some 3, is_initialized_ := true, ptr_ := .data } : Optional Int) 9
        = .ret () o2 tr ∧ HasValue o2 = true ∧
      (Value o2 : Res (Event Int Int) Empty (Optional Int) Int) = .ret 9 o2 [] :=
  ⟨rfl, rfl, C8_emplace_round_trip intContained
    ({ data_ := some 3, is_initialized_ := true, ptr_ := .data } : Optional Int) 9 9 rfl rfl⟩

/-- C10: Emplace(args...) on a well-formed Optional. If a value `old` is held,
the T operations invoked are the destructor of `old` and then the construction
from args, in that order and nothing else: one destructor call, one
constructor call, no assignment. If no value is held, the only T operation
invoked is the construction from args. This holds whether or not the
construction raises. -/
theorem C10_emplace_destroys_then_constructs (C : Contained T A E) (o : Optional T)
    (args : A) (hwf : o.wf = true) :
    (∀ old, o.data_ = some old →
      (Emplace C o args).trace = [.dtor old, .ctor_args args] ∧
      dtor_calls (Emplace C o args).trace = 1 ∧
      ctor_calls (Emplace C o args).trace = 1 ∧
      assign_calls (Emplace C o args).trace = 0) ∧
    (o.data_ = none →
      (Emplace C o args).trace = [.ctor_args args] ∧
      dtor_calls (Emplace C o args).trace = 0 ∧
      ctor_calls (Emplace C o args).trace = 1 ∧
      assign_calls (Emplace C o args).trace = 0) := by
  rcases o with ⟨d, i, p⟩
  rcases wf_cases _ hwf with ⟨hp, hd⟩ | ⟨v, hp, hd, hi⟩
  · simp only at hp hd
    subst hp hd
    refine ⟨fun old h => by simp at h, fun _ => ?_⟩
    simp only [Emplace, destroy_held]
    cases C.construct args <;>
      simp [Res.trace, ctor_calls, assign_calls, dtor_calls, Event.isCtor, Event.isAssign,
        Event.isDtor]
  · simp only at hp hd
    subst hp hd
    refine ⟨fun old h => ?_, fun h => by simp at h⟩
    simp only [Option.some.injEq] at h
    subst h
    simp only [Emplace, destroy_held]
    cases C.construct args <;>
      simp [Res.trace, ctor_calls, assign_calls, dtor_calls, Event.isCtor, Event.isAssign,
        Event.isDtor]

/-- C10 at an engaged Optional of the raising type, holding 7: Emplace(0)
raises, and still ran the destructor of 7 and then the constructor. -/
theorem C10_emplace_destroys_then_constructs_witness :
    (({ data_ := some 7, is_initialized_ := true, ptr_ := .data } : Optional Nat).wf = true) ∧
    (Emplace fussyContained
        ({ data_ := some 7, is_initialized_ := true, ptr_ := .data } : Optional Nat) 0).trace
      = [.dtor 7, .ctor_args 0] :=
  ⟨rfl, ((C10_emplace_destroys_then_constructs fussyContained
      ({ data_ := some 7, is_initialized_ := true, ptr_ := .data } : Optional Nat) 0 rfl).1
      7 rfl).1⟩

/-- C1 (the code departs from it): `Optional<Fussy> a(5)` followed by
`a.Emplace(0)`, whose construction raises, leaves a state that holds no live
value, in which HasValue() is true and Value(), instead of raising
BadOptionalAccess, dereferences the null `ptr_`. -/
theorem C1_value_after_failed_emplace_is_unchecked :
    ∃ (a1 a2 : Optional Nat) (tr1 tr2 : List (Event Nat Nat)),
      Optional_const_T fussyContained 5 = .ret () (a1, 5) tr1 ∧
      Emplace fussyContained a1 0 = .raise (.contained ()) a2 tr2 ∧
      a2.data_ = none ∧
      (Value a2 : Res (Event Nat Nat) Unit (Optional Nat) Nat) ≠ .raise .BadOptionalAccess a2 [] ∧
      (Value a2 : Res (Event Nat Nat) Unit (Optional Nat) Nat) = .ub :=
  ⟨{ data_ := some 5, is_initialized_ := true, ptr_ := .data },
   { data_ := none, is_initialized_ := true, ptr_ := .null },
   [.ctor_copy 5], [.dtor 5, .ctor_args 0], rfl, rfl, rfl, by decide, rfl⟩

/-- C9 (the code departs from it): Emplace(0) on an engaged Optional of the
raising type holding 7 raises the error of the constructor, has destroyed 7,
and leaves `is_initialized_` set: HasValue() returns true although no value
is held. On a disengaged Optional the same call leaves HasValue() false. -/
theorem C9_failed_emplace_keeps_flag :
    Emplace fussyContained
        ({ data_ := some 7, is_initialized_ := true, ptr_ := .data } : Optional Nat) 0
      = .raise (.contained ()) { data_ := none, is_initialized_ := true, ptr_ := .null }
          [.dtor 7, .ctor_args 0] ∧
    HasValue ({ data_ := none, is_initialized_ := true, ptr_ := .null } : Optional Nat) = true ∧
    Emplace fussyContained (Optional.init : Optional Nat) 0
      = .raise (.contained ()) Optional.init [.ctor_args 0] :=
  ⟨rfl, rfl, rfl⟩

/-- C11 (the code departs from it): the default-constructed state has the
flag clear and `ptr_` null, and so agrees with its storage; but Emplace(0) on
an engaged Optional of the raising type holding 7 raises and leaves
`is_initialized_` set with `ptr_` null and no value in the storage, so that
the flag no longer tells whether a T is held. -/
theorem C11_flag_disagrees_after_failed_emplace :
    (Optional.init : Optional Nat).consistent = true ∧
    ({ data_ := some 7, is_initialized_ := true, ptr_ := .data } : Optional Nat).consistent
      = true ∧
    ∃ (o2 : Optional Nat) (tr : List (Event Nat Nat)),
      Emplace fussyContained
          ({ data_ := some 7, is_initialized_ := true, ptr_ := .data } : Optional Nat) 0
        = .raise (.contained ()) o2 tr ∧
      o2.is_initialized_ = true ∧ o2.ptr_ = .null ∧ o2.data_ = none ∧
      o2.consistent = false :=
  ⟨rfl, rfl, { data_ := none, is_initialized_ := true, ptr_ := .null },
    [.dtor 7, .ctor_args 0], rfl, rfl, rfl, rfl, rfl⟩

/-- C13: destroying a well-formed Optional that holds a value v invokes the
destructor of v exactly once and nothing else; destroying one that holds no
value invokes no operation of T. In both cases the destructor returns. -/
theorem C13_destruction_destroys_once (o : Optional T) (hwf : o.wf = true) :
    (∀ v, o.data_ = some v →
      (Optional_destructor o : Res (Event T A) E (Optional T) Unit)
        = .ret () Optional.init [.dtor v] ∧
      dtor_calls ((Optional_destructor o : Res (Event T A) E (Optional T) Unit).trace) = 1) ∧
    (o.data_ = none →
      (Optional_destructor o : Res (Event T A) E (Optional T) Unit)
        = .ret () Optional.init [] ∧
      dtor_calls ((Optional_destructor o : Res (Event T A) E (Optional T) Unit).trace) = 0) := by
  rcases o with ⟨d, i, p⟩
  rcases wf_cases _ hwf with ⟨hp, hd⟩ | ⟨v, hp, hd, hi⟩
  · simp only at hp hd
    subst hp hd
    exact ⟨fun v h => by simp at h, fun _ => ⟨rfl, rfl⟩⟩
  · simp only at hp hd
    subst hp hd
    refine ⟨fun v2 h => ?_, fun h => by simp at h⟩
    simp only [Option.some.injEq] at h
    subst h
    exact ⟨rfl, rfl⟩

/-- C13 at an `Optional<int>` holding 5. -/
theorem C13_destruction_destroys_once_witness :
    (({ data_ := some 5, is_initialized_ := true, ptr_ := .data } : Optional Int).wf = true) ∧
    (Optional_destructor ({ data_ := some 5, is_initialized_ := true, ptr_ := .data } :
        Optional Int) : Res (Event Int Int) Empty (Optional Int) Unit)
      = .ret () Optional.init [.dtor 5] :=
  ⟨rfl, ((C13_destruction_destroys_once (A := Int) (E := Empty)
      ({ data_ := some 5, is_initialized_ := true, ptr_ := .data } : Optional Int) rfl).1
      5 rfl).1⟩

/-- C18: on an engaged Optional holding v, `operator*` and Value() both return
v, `operator->` returns a pointer whose target is v, and each of them, like
HasValue(), leaves the state as it was and invokes no operation of T. The
const and non-const overloads have the same bodies and are the same
definitions here. -/
theorem C18_unchecked_agrees_with_checked (o : Optional T) (v : T)
    (hi : HasValue o = true) (hp : o.ptr_ = .data) (hd : o.data_ = some v) :
    (operator_star o : Res (Event T A) E (Optional T) T) = .ret v o [] ∧
    (Value o : Res (Event T A) E (Optional T) T) = .ret v o [] ∧
    (Value o : Res (Event T A) E (Optional T) T) = operator_star o ∧
    (∃ q : Ptr,
      (operator_arrow o : Res (Event T A) E (Optional T) Ptr) = .ret q o [] ∧
      q.target o = some v) := by
  rcases o with ⟨d, i, p⟩
  simp only [HasValue] at hi
  simp only at hp hd
  subst hi hp hd
  exact ⟨rfl, rfl, rfl, .data, rfl, rfl⟩

/-- C18 at an `Optional<int>` holding 5. -/
theorem C18_unchecked_agrees_with_checked_witness :
    HasValue ({ data_ := some 5, is_initialized_ := true, ptr_ := .data } : Optional Int) = true ∧
    (operator_star ({ data_ := some 5, is_initialized_ := true, ptr_ := .data } : Optional Int) :
        Res (Event Int Int) Empty (Optional Int) Int)
      = .ret 5 { data_ := some 5, is_initialized_ := true, ptr_ := .data } [] :=
  ⟨rfl, (C18_unchecked_agrees_with_checked (A := Int) (E := Empty)
      ({ data_ := some 5, is_initialized_ := true, ptr_ := .data } : Optional Int)
      5 rfl rfl rfl).1⟩

/-- The value assignments are `Forward`. -/
theorem assign_T_eq_Forward (C : Contained T A E) (cat : ValueCategory) (o : Optional T)
    (v : T) : assign_T C cat o v = Forward C cat o v := by
  cases cat <;> rfl

/-- Assignment from an engaged Optional holding `v` is `Forward` of `v`, the
source keeping what the forwarding left in its value. -/
theorem assign_from_engaged (C : Contained T A E) (cat : ValueCategory)
    (a b : Optional T) (v : T)
    (hi : HasValue b = true) (hp : b.ptr_ = .data) (hd : b.data_ = some v) :
    assign_from_Optional C cat a b
      = (Forward C cat a v).mapState (fun p => (p.1, { b with data_ := some p.2 })) := by
  have hv : (Value b : Res (Event T A) E (Optional T) T) = .ret v b [] := by
    simp only [HasValue] at hi
    simp [Value, operator_star, hi, hp, hd]
  simp [assign_from_Optional, hi, hv]

/-- Constructing an Optional from another Optional b whose flag agrees with
its storage, by copy or by move.
When b is engaged holding v and the construction of T from v succeeds with w,
the new Optional is engaged and holds w, the only T operation invoked is that
one construction (no assignment, no destructor), and the source keeps its flag
and pointer; after a copy the source is exactly as it was. When b is
disengaged (HasValue() false), the new Optional is disengaged, nothing of T
is invoked and b is as it was. A source whose flag is set over an empty
storage is covered by neither case. -/
theorem construct_from_consistent_Optional (C : Contained T A E) (cat : ValueCategory)
    (b : Optional T) :
    (∀ v w, HasValue b = true → b.ptr_ = .data → b.data_ = some v →
      (construct_forwarded C cat v).1 = .ok w →
      Optional_from_Optional C cat b
        = .ret () ({ data_ := some w, is_initialized_ := true, ptr_ := .data },
            { b with data_ := some (construct_forwarded C cat v).2.1 })
            [(construct_forwarded C cat v).2.2] ∧
      HasValue ({ data_ := some w, is_initialized_ := true, ptr_ := .data } : Optional T)
        = true ∧
      (Value ({ data_ := some w, is_initialized_ := true, ptr_ := .data } : Optional T) :
          Res (Event T A) E (Optional T) T)
        = .ret w { data_ := some w, is_initialized_ := true, ptr_ := .data } [] ∧
      ctor_calls (Optional_from_Optional C cat b).trace = 1 ∧
      assign_calls (Optional_from_Optional C cat b).trace = 0 ∧
      dtor_calls (Optional_from_Optional C cat b).trace = 0 ∧
      (cat = .lvalue → { b with data_ := some (construct_forwarded C cat v).2.1 } = b)) ∧
    (HasValue b = false →
      Optional_from_Optional C cat b = .ret () (Optional.init, b) []) := by
  constructor
  · intro v w hi hp hd hc
    have hA := assign_from_engaged C cat Optional.init b v hi hp hd
    have hF : Forward C cat (Optional.init : Optional T) v
        = .ret () ({ data_ := some w, is_initialized_ := true, ptr_ := .data },
            (construct_forwarded C cat v).2.1) [(construct_forwarded C cat v).2.2] := by
      simp only [Forward, Optional.init]
      rcases hcf : construct_forwarded C cat v with ⟨r, v2, ev⟩
      rw [hcf] at hc
      simp only at hc
      subst hc
      rfl
    rw [hF] at hA
    have hO : Optional_from_Optional C cat b
        = .ret () ({ data_ := some w, is_initialized_ := true, ptr_ := .data },
            { b with data_ := some (construct_forwarded C cat v).2.1 })
            [(construct_forwarded C cat v).2.2] := by
      cases cat
      · simpa [Optional_from_Optional, Optional_const_Optional, assign_const_Optional] using hA
      · simp only [Optional_from_Optional, Optional_rvalue_Optional, assign_rvalue_Optional]
        rw [hA]
        rfl
    refine ⟨hO, rfl, rfl, ?_, ?_, ?_, ?_⟩
    · rw [hO]; cases cat <;> simp [Res.trace, ctor_calls, construct_forwarded, Event.isCtor]
    · rw [hO]; cases cat <;> simp [Res.trace, assign_calls, construct_forwarded, Event.isAssign]
    · rw [hO]; cases cat <;> simp [Res.trace, dtor_calls, construct_forwarded, Event.isDtor]
    · intro hcat
      subst hcat
      rcases b with ⟨d, i, p⟩
      simp only at hd
      subst hd
      rfl
  · intro hi
    have hA : assign_from_Optional C cat (Optional.init : Optional T) b
        = .ret () (Optional.init, b) [] := by
      simp [assign_from_Optional, hi, Reset, destroy_held, Optional.init, Res.mapState]
    cases cat
    · simpa [Optional_from_Optional, Optional_const_Optional, assign_const_Optional] using hA
    · simp only [Optional_from_Optional, Optional_rvalue_Optional, assign_rvalue_Optional]
      rw [hA]

/-- The case `Optional<int> b(10); Optional<int> c(b);`. -/
theorem construct_from_consistent_Optional_example :
    (HasValue ({ data_ := some 10, is_initialized_ := true, ptr_ := .data } : Optional Int)
      = true ∧
     (construct_forwarded intContained .lvalue (10 : Int)).1 = .ok 10) ∧
    Optional_from_Optional intContained .lvalue
        ({ data_ := some 10, is_initialized_ := true, ptr_ := .data } : Optional Int)
      = .ret () ({ data_ := some 10, is_initialized_ := true, ptr_ := .data },
          { data_ := some 10, is_initialized_ := true, ptr_ := .data })
          [.ctor_copy 10] :=
  ⟨⟨rfl, rfl⟩,
   ((construct_from_consistent_Optional intContained .lvalue
      ({ data_ := some 10, is_initialized_ := true, ptr_ := .data } : Optional Int)).1
      10 10 rfl rfl rfl rfl).1⟩

/-- C17: failure of an ordinary assignment on a well-formed Optional. If the
Optional is disengaged and the construction of T from v raises e, the
assignment raises e and the Optional is exactly as before: HasValue() false,
Value() raising BadOptionalAccess. If the Optional holds a value and T's
assignment raises e, the assignment raises e, no destructor has run, and the
Optional is still engaged, holding the live value as T's assignment left it.
Assignment from an engaged Optional holding v does to its target what the
assignment of v does. -/
theorem C17_assignment_failure_keeps_state (C : Contained T A E) (cat : ValueCategory)
    (o : Optional T) (v : T) (e : E) (hwf : o.wf = true) :
    (HasValue o = false → (construct_forwarded C cat v).1 = .error e →
      assign_T C cat o v
        = .raise (.contained e) (o, (construct_forwarded C cat v).2.1)
            [(construct_forwarded C cat v).2.2] ∧
      (Value o : Res (Event T A) E (Optional T) T) = .raise .BadOptionalAccess o []) ∧
    (∀ old, o.data_ = some old → (assign_forwarded C cat old v).1 = some e →
      assign_T C cat o v
        = .raise (.contained e)
            ({ o with data_ := some (assign_forwarded C cat old v).2.1 },
              (assign_forwarded C cat old v).2.2.1)
            [(assign_forwarded C cat old v).2.2.2] ∧
      dtor_calls (assign_T C cat o v).trace = 0 ∧
      HasValue ({ o with data_ := some (assign_forwarded C cat old v).2.1 } : Optional T)
        = true ∧
      (Value ({ o with data_ := some (assign_forwarded C cat old v).2.1 } : Optional T) :
          Res (Event T A) E (Optional T) T)
        = .ret (assign_forwarded C cat old v).2.1
            { o with data_ := some (assign_forwarded C cat old v).2.1 } []) ∧
    (∀ b : Optional T, HasValue b = true → b.ptr_ = .data → b.data_ = some v →
      (assign_from_Optional C cat o b).mapState Prod.fst
        = (assign_T C cat o v).mapState Prod.fst) := by
  rw [assign_T_eq_Forward]
  refine ⟨?_, ?_, ?_⟩
  · intro hv hc
    rcases o with ⟨d, i, p⟩
    simp only [HasValue] at hv
    subst hv
    rcases wf_cases _ hwf with ⟨hp, hd⟩ | ⟨old, hp, hd, hi⟩
    · simp only at hp hd
      subst hp hd
      refine ⟨?_, rfl⟩
      simp only [Forward]
      rcases hcf : construct_forwarded C cat v with ⟨r, v2, ev⟩
      rw [hcf] at hc
      simp only at hc
      subst hc
      rfl
    · simp at hi
  · intro old hd ha
    rcases o with ⟨d, i, p⟩
    simp only at hd
    subst hd
    rcases wf_cases _ hwf with ⟨hp, hd⟩ | ⟨old2, hp, hd, hi⟩
    · simp at hd
    · simp only at hp hi
      subst hp hi
      have hF : Forward C cat
          ({ data_ := some old, is_initialized_ := true, ptr_ := .data } : Optional T) v
          = .raise (.contained e)
            ({ data_ := some (assign_forwarded C cat old v).2.1, is_initialized_ := true,
               ptr_ := .data }, (assign_forwarded C cat old v).2.2.1)
            [(assign_forwarded C cat old v).2.2.2] := by
        simp only [Forward]
        rcases haf : assign_forwarded C cat old v with ⟨r, new, v2, ev⟩
        rw [haf] at ha
        simp only at ha
        subst ha
        rfl
      refine ⟨hF, ?_, rfl, rfl⟩
      rw [hF]
      cases cat <;> simp [Res.trace, dtor_calls, assign_forwarded, Event.isDtor]
  · intro b hi hp hd
    rw [assign_from_engaged C cat o b v hi hp hd]
    cases Forward C cat o v <;> rfl

/-- C17 at the raising type: assigning 0 to an Optional holding 7 raises and
leaves it holding 7. -/
theorem C17_assignment_failure_keeps_state_witness :
    (({ data_ := some 7, is_initialized_ := true, ptr_ := .data } : Optional Nat).wf = true ∧
     (assign_forwarded fussyContained .lvalue 7 0).1 = some ()) ∧
    assign_T fussyContained .lvalue
        ({ data_ := some 7, is_initialized_ := true, ptr_ := .data } : Optional Nat) 0
      = .raise (.contained ())
          ({ data_ := some 7, is_initialized_ := true, ptr_ := .data }, 0)
          [.assign_copy 7 0] :=
  ⟨⟨rfl, rfl⟩,
   ((C17_assignment_failure_keeps_state fussyContained .lvalue
      ({ data_ := some 7, is_initialized_ := true, ptr_ := .data } : Optional Nat) 0 () rfl).2.1
      7 rfl rfl).1⟩

/-- C19: a move from an engaged source b holding v, into a well-formed target
a other than b. Move assignment always leaves a state (it returns or raises),
move construction does unless it terminates; in every state left, the source
still has HasValue() true and still holds a live value, the one T's move left
there, and destroying the source then runs the destructor of that value
exactly once. A move from a disengaged source returns and leaves the source
as it was, disengaged. -/
theorem C19_move_keeps_source_engaged (C : Contained T A E) (a b : Optional T) (v : T)
    (hwf : a.wf = true) :
    (HasValue b = true → b.ptr_ = .data → b.data_ = some v →
      (∃ s, (assign_rvalue_Optional C a b).state? = some s) ∧
      (∀ s, (assign_rvalue_Optional C a b).state? = some s ∨
            (Optional_rvalue_Optional C b).state? = some s →
        HasValue s.2 = true ∧
        ∃ v2, s.2 = { b with data_ := some v2 } ∧
          (Optional_destructor s.2 : Res (Event T A) E (Optional T) Unit)
            = .ret () Optional.init [.dtor v2] ∧
          dtor_calls ((Optional_destructor s.2 :
            Res (Event T A) E (Optional T) Unit).trace) = 1)) ∧
    (HasValue b = false →
      (∃ tr, assign_rvalue_Optional C a b = .ret () (Optional.init, b) tr) ∧
      Optional_rvalue_Optional C b = .ret () (Optional.init, b) []) := by
  constructor
  · intro hi hp hd
    have key : ∀ (a0 : Optional T) (s : Optional T × Optional T),
        (assign_from_Optional C .rvalue a0 b).state? = some s →
        ∃ v2, s.2 = { b with data_ := some v2 } := by
      intro a0 s hs
      rw [assign_from_engaged C .rvalue a0 b v hi hp hd] at hs
      cases hF : Forward C .rvalue a0 v with
      | ret r t tr =>
        rw [hF] at hs
        simp only [Res.mapState, Res.state?, Option.some.injEq] at hs
        exact ⟨t.2, by rw [← hs]⟩
      | raise e t tr =>
        rw [hF] at hs
        simp only [Res.mapState, Res.state?, Option.some.injEq] at hs
        exact ⟨t.2, by rw [← hs]⟩
      | terminate tr => rw [hF] at hs; simp [Res.mapState, Res.state?] at hs
      | ub => rw [hF] at hs; simp [Res.mapState, Res.state?] at hs
    have fin : ∀ (s : Optional T × Optional T), (∃ v2, s.2 = { b with data_ := some v2 }) →
        HasValue s.2 = true ∧
        ∃ v2, s.2 = { b with data_ := some v2 } ∧
          (Optional_destructor s.2 : Res (Event T A) E (Optional T) Unit)
            = .ret () Optional.init [.dtor v2] ∧
          dtor_calls ((Optional_destructor s.2 :
            Res (Event T A) E (Optional T) Unit).trace) = 1 := by
      rintro s ⟨v2, hs2⟩
      rcases b with ⟨d, i, p⟩
      simp only [HasValue] at hi
      simp only at hp
      subst hi hp
      rw [hs2]
      exact ⟨rfl, v2, rfl, rfl, rfl⟩
    refine ⟨?_, ?_⟩
    · simp only [assign_rvalue_Optional]
      rw [assign_from_engaged C .rvalue a b v hi hp hd]
      rcases a with ⟨d, i, p⟩
      rcases wf_cases _ hwf with ⟨hp2, hd2⟩ | ⟨old, hp2, hd2, hi2⟩
      · simp only at hp2 hd2
        subst hp2 hd2
        simp only [Forward]
        rcases construct_forwarded C .rvalue v with ⟨r, v2, ev⟩
        cases r <;> simp [Res.mapState, Res.state?]
      · simp only at hp2 hd2
        subst hp2 hd2
        simp only [Forward]
        rcases assign_forwarded C .rvalue old v with ⟨r, new, v2, ev⟩
        cases r <;> simp [Res.mapState, Res.state?]
    · rintro s (hs | hs)
      · exact fin s (key a s hs)
      · apply fin s
        apply key Optional.init s
        simp only [Optional_rvalue_Optional, assign_rvalue_Optional] at hs
        cases hA : assign_from_Optional C .rvalue (Optional.init : Optional T) b with
        | ret r t tr => rw [hA] at hs; simpa [Res.state?] using hs
        | raise e t tr => rw [hA] at hs; simp [Res.state?] at hs
        | terminate tr => rw [hA] at hs; simp [Res.state?] at hs
        | ub => rw [hA] at hs; simp [Res.state?] at hs
  · intro hi
    obtain ⟨tr, htr⟩ := Reset_of_wf (A := A) (E := E) a hwf
    refine ⟨⟨tr, ?_⟩, ?_⟩
    · simp [assign_rvalue_Optional, assign_from_Optional, hi, htr, Res.mapState]
    · have hA : assign_from_Optional C .rvalue (Optional.init : Optional T) b
          = .ret () (Optional.init, b) [] := by
        simp [assign_from_Optional, hi, Reset, destroy_held, Optional.init, Res.mapState]
      simp only [Optional_rvalue_Optional, assign_rvalue_Optional]
      rw [hA]

/-- C19 at the raising type, whose move leaves 0 behind: moving an Optional
holding 7 into a default-constructed one leaves the source engaged, holding 0. -/
theorem C19_move_keeps_source_engaged_witness :
    ((Optional.init : Optional Nat).wf = true ∧
     HasValue ({ data_ := some 7, is_initialized_ := true, ptr_ := .data } : Optional Nat)
       = true) ∧
    (∀ s, (assign_rvalue_Optional fussyContained Optional.init
              ({ data_ := some 7, is_initialized_ := true, ptr_ := .data } : Optional Nat)).state?
            = some s ∨
          (Optional_rvalue_Optional fussyContained
              ({ data_ := some 7, is_initialized_ := true, ptr_ := .data } : Optional Nat)).state?
            = some s →
      HasValue s.2 = true ∧
      ∃ v2, s.2 = { ({ data_ := some 7, is_initialized_ := true, ptr_ := .data } :
            Optional Nat) with data_ := some v2 } ∧
        (Optional_destructor s.2 : Res (Event Nat Nat) Unit (Optional Nat) Unit)
          = .ret () Optional.init [.dtor v2] ∧
        dtor_calls ((Optional_destructor s.2 :
          Res (Event Nat Nat) Unit (Optional Nat) Unit).trace) = 1) :=
  ⟨⟨rfl, rfl⟩,
   ((C19_move_keeps_source_engaged fussyContained Optional.init
      ({ data_ := some 7, is_initialized_ := true, ptr_ := .data } : Optional Nat) 7 rfl).1
      rfl rfl rfl).2⟩

/-- C16, as stated, fails for move construction: with the raising type, an
Optional holding 7 is moved from and is left engaged holding 0; constructing
a further Optional by move from it runs T's move constructor on 0, which
raises, and the `noexcept` constructor turns that into `std::terminate`
instead of raising to the caller. -/
theorem C16_move_construction_terminates :
    assign_rvalue_Optional fussyContained (Optional.init : Optional Nat)
        { data_ := some 7, is_initialized_ := true, ptr_ := .data }
      = .ret () ({ data_ := some 7, is_initialized_ := true, ptr_ := .data },
          { data_ := some 0, is_initialized_ := true, ptr_ := .data }) [.ctor_move 7] ∧
    (fussyContained.move_construct 0).1 = .error () ∧
    Optional_rvalue_Optional fussyContained
        ({ data_ := some 0, is_initialized_ := true, ptr_ := .data } : Optional Nat)
      = .terminate [.ctor_move 0] ∧
    ¬ ∃ (s : Optional Nat × Optional Nat) (tr : List (Event Nat Nat)),
      Optional_rvalue_Optional fussyContained
          ({ data_ := some 0, is_initialized_ := true, ptr_ := .data } : Optional Nat)
        = .raise (.contained ()) s tr := by
  refine ⟨rfl, rfl, rfl, ?_⟩
  rintro ⟨s, tr, h⟩
  have h2 : Optional_rvalue_Optional fussyContained
      ({ data_ := some 0, is_initialized_ := true, ptr_ := .data } : Optional Nat)
      = .terminate [.ctor_move 0] := rfl
  rw [h2] at h
  exact Res.noConfusion h

/-- C16, amended: on a well-formed Optional o, when the operation of T that
an Optional operation runs raises e, the Optional operation raises exactly e
to its caller, for construction from a value, copy construction from an
Optional, the four assignments and Emplace. Move construction from an
Optional is declared `noexcept`: when T's move constructor raises there, the
outcome is `std::terminate`. Here b is an engaged source holding v. -/
theorem C16_errors_propagate_except_move_construction (C : Contained T A E)
    (cat : ValueCategory) (o b : Optional T) (v : T) (args : A) (e : E)
    (hwf : o.wf = true)
    (hi : HasValue b = true) (hp : b.ptr_ = .data) (hd : b.data_ = some v) :
    (o.data_ = none → (construct_forwarded C cat v).1 = .error e →
      (∃ s tr, assign_T C cat o v = .raise (.contained e) s tr) ∧
      (∃ s tr, assign_from_Optional C cat o b = .raise (.contained e) s tr)) ∧
    (∀ old, o.data_ = some old → (assign_forwarded C cat old v).1 = some e →
      (∃ s tr, assign_T C cat o v = .raise (.contained e) s tr) ∧
      (∃ s tr, assign_from_Optional C cat o b = .raise (.contained e) s tr)) ∧
    ((construct_forwarded C cat v).1 = .error e →
      ∃ s tr, Optional_from_T C cat v = .raise (.contained e) s tr) ∧
    (C.copy_construct v = .error e →
      ∃ s tr, Optional_const_Optional C b = .raise (.contained e) s tr) ∧
    (C.construct args = .error e →
      ∃ s tr, Emplace C o args = .raise (.contained e) s tr) ∧
    ((C.move_construct v).1 = .error e →
      ∃ tr, Optional_rvalue_Optional C b = .terminate tr) := by
  have hnull : ∀ (c : ValueCategory) (o1 : Optional T), o1.ptr_ = .null →
      (construct_forwarded C c v).1 = .error e →
      ∃ s tr, Forward C c o1 v = .raise (.contained e) s tr := by
    intro c o1 hp1 hc
    rcases o1 with ⟨d, i, p⟩
    simp only at hp1
    subst hp1
    simp only [Forward]
    rcases hcf : construct_forwarded C c v with ⟨r, v2, ev⟩
    rw [hcf] at hc
    simp only at hc
    subst hc
    exact ⟨_, _, rfl⟩
  have hlift : ∀ (c : ValueCategory) (o1 : Optional T),
      (∃ s tr, Forward C c o1 v = .raise (.contained e) s tr) →
      ∃ s tr, assign_from_Optional C c o1 b = .raise (.contained e) s tr := by
    rintro c o1 ⟨s, tr, h⟩
    rw [assign_from_engaged C c o1 b v hi hp hd, h]
    exact ⟨_, _, rfl⟩
  refine ⟨?_, ?_, ?_, ?_, ?_, ?_⟩
  · intro hd0 hc
    have hp0 : o.ptr_ = .null := by
      rcases wf_cases _ hwf with ⟨h1, _⟩ | ⟨old, _, h2, _⟩
      · exact h1
      · rw [hd0] at h2; simp at h2
    rw [assign_T_eq_Forward]
    exact ⟨hnull cat o hp0 hc, hlift cat o (hnull cat o hp0 hc)⟩
  · intro old hd0 ha
    have hF : ∃ s tr, Forward C cat o v = .raise (.contained e) s tr := by
      rcases o with ⟨d, i, p⟩
      simp only at hd0
      subst hd0
      rcases wf_cases _ hwf with ⟨_, h2⟩ | ⟨old2, hp2, _, _⟩
      · simp at h2
      · simp only at hp2
        subst hp2
        simp only [Forward]
        rcases haf : assign_forwarded C cat old v with ⟨r, new, v2, ev⟩
        rw [haf] at ha
        simp only at ha
        subst ha
        exact ⟨_, _, rfl⟩
    rw [assign_T_eq_Forward]
    exact ⟨hF, hlift cat o hF⟩
  · intro hc
    have h := hnull cat Optional.init rfl hc
    cases cat <;> exact h
  · intro hc
    exact hlift .lvalue Optional.init (hnull .lvalue Optional.init rfl hc)
  · intro hc
    rcases o with ⟨d, i, p⟩
    rcases wf_cases _ hwf with ⟨hp2, hd2⟩ | ⟨old, hp2, hd2, _⟩ <;>
      simp only at hp2 hd2 <;> subst hp2 hd2 <;>
      simp only [Emplace, destroy_held, hc] <;> exact ⟨_, _, rfl⟩
  · intro hc
    obtain ⟨s, tr, h⟩ := hlift .rvalue Optional.init (hnull .rvalue Optional.init rfl hc)
    refine ⟨tr, ?_⟩
    simp only [Optional_rvalue_Optional, assign_rvalue_Optional]
    rw [h]

/-- C16 amended, at the raising type: Emplace(0) on a default-constructed
Optional raises the error of T's constructor. -/
theorem C16_errors_propagate_except_move_construction_witness :
    ((Optional.init : Optional Nat).wf = true ∧
     HasValue ({ data_ := some 7, is_initialized_ := true, ptr_ := .data } : Optional Nat)
       = true ∧
     fussyContained.construct 0 = .error ()) ∧
    ∃ s tr, Emplace fussyContained (Optional.init : Optional Nat) 0
      = .raise (.contained ()) s tr :=
  ⟨⟨rfl, rfl, rfl⟩,
   (C16_errors_propagate_except_move_construction fussyContained .lvalue Optional.init
      ({ data_ := some 7, is_initialized_ := true, ptr_ := .data } : Optional Nat)
      7 0 () rfl rfl rfl rfl).2.2.2.2.1 rfl⟩

/-- Replaying a concatenation is replaying its parts in turn. -/
theorem replay_append (C : Contained T A E) (t1 t2 : List (Event T A)) (live : Bool) :
    replay C live (t1 ++ t2) = (replay C live t1).bind (fun l => replay C l t2) := by
  induction t1 generalizing live with
  | nil => rfl
  | cons ev rest ih =>
    cases ev <;> cases live <;> simp [replay, ih]

/-- A trace that obeys the lifetime rules destroys as many objects as were
live at its start or born during it, less the one live at its end. -/
theorem replay_balance (C : Contained T A E) (tr : List (Event T A)) (live last : Bool)
    (h : replay C live tr = some last) :
    (if live then 1 else 0) + born C tr = (if last then 1 else 0) + dtor_calls tr := by
  induction tr generalizing live with
  | nil =>
    simp only [replay, Option.some.injEq] at h
    subst h
    simp [born, dtor_calls]
  | cons ev rest ih =>
    have hb : ∀ x : Bool, (if x = true then 1 else 0 : Nat) = x.toNat := by
      intro x; cases x <;> rfl
    simp only [hb] at ih ⊢
    cases ev with
    | ctor_args a =>
      cases live
      · have h2 := ih _ h
        simp only [born, dtor_calls, List.countP_cons, Event.isDtor, hb] at h2 ⊢
        generalize Event.constructs C (Event.ctor_args a) = c at h2 ⊢
        cases c
        · simp_all
        · simp_all
          omega
      · simp [replay] at h
    | ctor_copy v =>
      cases live
      · have h2 := ih _ h
        simp only [born, dtor_calls, List.countP_cons, Event.isDtor, hb] at h2 ⊢
        generalize Event.constructs C (Event.ctor_copy v) = c at h2 ⊢
        cases c
        · simp_all
        · simp_all
          omega
      · simp [replay] at h
    | ctor_move v =>
      cases live
      · have h2 := ih _ h
        simp only [born, dtor_calls, List.countP_cons, Event.isDtor, hb] at h2 ⊢
        generalize Event.constructs C (Event.ctor_move v) = c at h2 ⊢
        cases c
        · simp_all
        · simp_all
          omega
      · simp [replay] at h
    | assign_copy d v =>
      cases live
      · simp [replay] at h
      · have h2 := ih _ h
        simp only [born, dtor_calls, List.countP_cons, Event.isDtor, Event.constructs] at h2 ⊢
        simp_all
    | assign_move d v =>
      cases live
      · simp [replay] at h
      · have h2 := ih _ h
        simp only [born, dtor_calls, List.countP_cons, Event.isDtor, Event.constructs] at h2 ⊢
        simp_all
    | dtor v =>
      cases live
      · simp [replay] at h
      · have h2 := ih _ h
        simp only [born, dtor_calls, List.countP_cons, Event.isDtor, Event.constructs] at h2 ⊢
        simp_all
        omega

/-- On a well-formed Optional, `Forward` returns or raises, leaves a
well-formed Optional, and its trace obeys the lifetime rules of the storage. -/
theorem Forward_lifetime (C : Contained T A E) (cat : ValueCategory) (o : Optional T)
    (v : T) (hwf : o.wf = true) :
    ∃ s, (Forward C cat o v).state? = some s ∧ s.1.wf = true ∧
      replay C o.data_.isSome (Forward C cat o v).trace = some s.1.data_.isSome := by
  rcases o with ⟨d, i, p⟩
  rcases wf_cases _ hwf with ⟨hp, hd⟩ | ⟨old, hp, hd, hi⟩
  · simp only at hp hd
    subst hp hd
    cases cat
    · simp only [Forward, construct_forwarded]
      cases hc : C.copy_construct v <;>
        simp [Res.state?, Res.trace, replay, Event.constructs, hc, Optional.wf]
    · simp only [Forward, construct_forwarded]
      cases hc : (C.move_construct v).1 <;>
        simp [Res.state?, Res.trace, replay, Event.constructs, hc, Optional.wf]
  · simp only at hp hd hi
    subst hp hd hi
    cases cat
    · simp only [Forward, assign_forwarded]
      cases hc : (C.copy_assign old v).1 <;>
        simp [Res.state?, Res.trace, replay, Optional.wf]
    · simp only [Forward, assign_forwarded]
      cases hc : (C.move_assign old v).1 <;>
        simp [Res.state?, Res.trace, replay, Optional.wf]

/-- On a well-formed Optional, `Reset` obeys the lifetime rules and leaves
the storage empty. -/
theorem Reset_lifetime (C : Contained T A E) (o : Optional T) (hwf : o.wf = true) :
    ∃ tr, (Reset o : Res (Event T A) E (Optional T) Unit) = .ret () Optional.init tr ∧
      replay C o.data_.isSome tr = some false := by
  rcases o with ⟨d, i, p⟩
  rcases wf_cases _ hwf with ⟨hp, hd⟩ | ⟨old, hp, hd, hi⟩
  · simp only at hp hd
    subst hp hd
    exact ⟨[], rfl, rfl⟩
  · simp only at hp hd
    subst hp hd
    exact ⟨[.dtor old], rfl, rfl⟩

/-- On a well-formed Optional, `Emplace` returns or raises, leaves a
well-formed Optional, and its trace obeys the lifetime rules of the storage. -/
theorem Emplace_lifetime (C : Contained T A E) (o : Optional T) (args : A)
    (hwf : o.wf = true) :
    ∃ s, (Emplace C o args).state? = some s ∧ s.wf = true ∧
      replay C o.data_.isSome (Emplace C o args).trace = some s.data_.isSome := by
  rcases o with ⟨d, i, p⟩
  rcases wf_cases _ hwf with ⟨hp, hd⟩ | ⟨old, hp, hd, hi⟩
  · simp only at hp hd
    subst hp hd
    simp only [Emplace, destroy_held]
    cases hc : C.construct args <;>
      simp [Res.state?, Res.trace, replay, Event.constructs, hc, Optional.wf]
  · simp only at hp hd
    subst hp hd
    simp only [Emplace, destroy_held]
    cases hc : C.construct args <;>
      simp [Res.state?, Res.trace, replay, Event.constructs, hc, Optional.wf]

/-- State and trace of an outcome do not depend on how its state is viewed. -/
theorem mapState_state_trace {Ev S S2 R : Type} (f : S → S2) (r : Res Ev E S R) :
    (r.mapState f).state? = r.state?.map f ∧ (r.mapState f).trace = r.trace := by
  cases r <;> exact ⟨rfl, rfl⟩

/-- Assignment from an Optional, seen from its target: on a well-formed
target it leaves a well-formed target and a trace that obeys the lifetime
rules, when it leaves a state at all; it does leave one when the source is
consistent. -/
theorem assign_from_Optional_lifetime (C : Contained T A E) (cat : ValueCategory)
    (o rhs : Optional T) (hwf : o.wf = true) :
    (∀ s, (assign_from_Optional C cat o rhs).state? = some s →
      s.1.wf = true ∧
      replay C o.data_.isSome (assign_from_Optional C cat o rhs).trace
        = some s.1.data_.isSome) ∧
    (rhs.consistent = true → ∃ s, (assign_from_Optional C cat o rhs).state? = some s) := by
  rcases rhs with ⟨d, i, p⟩
  cases i
  · obtain ⟨tr, htr, hrr⟩ := Reset_lifetime C o hwf
    simp only [assign_from_Optional, HasValue, Bool.false_eq_true, if_false, htr, Res.mapState,
      Res.state?, Res.trace, Option.some.injEq]
    exact ⟨fun s h => by subst h; exact ⟨rfl, hrr⟩, fun _ => ⟨_, rfl⟩⟩
  · cases p
    · simp [assign_from_Optional, HasValue, Value, operator_star, Res.state?,
        Optional.consistent]
    · cases d with
      | none =>
        simp [assign_from_Optional, HasValue, Value, operator_star, Res.state?,
          Optional.consistent]
      | some v =>
        obtain ⟨s, hs, hw, hr⟩ := Forward_lifetime C cat o v hwf
        simp only [assign_from_Optional, HasValue, Value, operator_star, if_true,
          Bool.not_true, Bool.false_eq_true, if_false, (mapState_state_trace _ _).1,
          (mapState_state_trace _ _).2, hs, Option.map_some', Option.some.injEq]
        exact ⟨fun s2 h => by subst h; exact ⟨hw, hr⟩, fun _ => ⟨_, rfl⟩⟩

/-- Every mutator, applied to a well-formed Optional, leaves a well-formed
Optional and a trace that obeys the lifetime rules, when it leaves a state
at all; it does leave one when its Optional argument is consistent. -/
theorem Op_lifetime (C : Contained T A E) (o : Optional T) (op : Op T A)
    (hwf : o.wf = true) :
    (∀ s, (op.apply C o).state? = some s →
      s.wf = true ∧ replay C o.data_.isSome (op.apply C o).trace = some s.data_.isSome) ∧
    (op.source_ok = true → ∃ s, (op.apply C o).state? = some s) := by
  cases op with
  | assign_T cat v =>
    obtain ⟨s, hs, hw, hr⟩ := Forward_lifetime C cat o v hwf
    simp only [Op.apply, assign_T_eq_Forward, (mapState_state_trace _ _).1,
      (mapState_state_trace _ _).2, hs, Option.map_some', Option.some.injEq]
    exact ⟨fun s2 h => by subst h; exact ⟨hw, hr⟩, fun _ => ⟨_, rfl⟩⟩
  | assign_Optional cat rhs =>
    have h := assign_from_Optional_lifetime C cat o rhs hwf
    simp only [Op.apply, Op.source_ok, (mapState_state_trace _ _).1,
      (mapState_state_trace _ _).2]
    refine ⟨fun s2 hs2 => ?_, fun hc => ?_⟩
    · cases hst : (assign_from_Optional C cat o rhs).state? with
      | none => rw [hst] at hs2; simp at hs2
      | some s =>
        rw [hst] at hs2
        simp only [Option.map_some', Option.some.injEq] at hs2
        subst hs2
        exact h.1 s hst
    · obtain ⟨s, hs⟩ := h.2 hc
      exact ⟨s.1, by rw [hs]; rfl⟩
  | Reset =>
    obtain ⟨tr, htr, hrr⟩ := Reset_lifetime C o hwf
    simp only [Op.apply, htr, Res.state?, Res.trace, Option.some.injEq]
    exact ⟨fun s2 h => by subst h; exact ⟨rfl, hrr⟩, fun _ => ⟨_, rfl⟩⟩
  | Emplace args =>
    obtain ⟨s, hs, hw, hr⟩ := Emplace_lifetime C o args hwf
    simp only [Op.apply, hs, Option.some.injEq]
    exact ⟨fun s2 h => by subst h; exact ⟨hw, hr⟩, fun _ => ⟨_, rfl⟩⟩

/-- A run from a well-formed Optional ends in a well-formed Optional, and its
whole trace obeys the lifetime rules of the storage. -/
theorem run_lifetime (C : Contained T A E) (ops : List (Op T A)) (o s : Optional T)
    (tr : List (Event T A)) (hwf : o.wf = true) (h : run C o ops = some (s, tr)) :
    s.wf = true ∧ replay C o.data_.isSome tr = some s.data_.isSome := by
  induction ops generalizing o tr with
  | nil =>
    simp only [run, Option.some.injEq, Prod.mk.injEq] at h
    obtain ⟨h1, h2⟩ := h
    subst h1 h2
    exact ⟨hwf, rfl⟩
  | cons op ops ih =>
    have hop := (Op_lifetime C o op hwf).1
    simp only [run] at h
    cases hr : op.apply C o with
    | ret r s1 t1 =>
      rw [hr] at h hop
      simp only at h
      obtain ⟨hw1, hr1⟩ := hop s1 rfl
      cases hrun : run C s1 ops with
      | none => rw [hrun] at h; simp at h
      | some q =>
        rw [hrun] at h
        simp only [Option.map_some', Option.some.injEq, Prod.mk.injEq] at h
        obtain ⟨h1, h2⟩ := h
        subst h1 h2
        obtain ⟨hw2, hr2⟩ := ih s1 q.2 hw1 hrun
        refine ⟨hw2, ?_⟩
        rw [replay_append]
        simp only [Res.trace] at hr1
        rw [hr1]
        exact hr2
    | raise e s1 t1 =>
      rw [hr] at h hop
      simp only at h
      obtain ⟨hw1, hr1⟩ := hop s1 rfl
      cases hrun : run C s1 ops with
      | none => rw [hrun] at h; simp at h
      | some q =>
        rw [hrun] at h
        simp only [Option.map_some', Option.some.injEq, Prod.mk.injEq] at h
        obtain ⟨h1, h2⟩ := h
        subst h1 h2
        obtain ⟨hw2, hr2⟩ := ih s1 q.2 hw1 hrun
        refine ⟨hw2, ?_⟩
        rw [replay_append]
        simp only [Res.trace] at hr1
        rw [hr1]
        exact hr2
    | terminate t1 => rw [hr] at h; simp at h
    | ub => rw [hr] at h; simp at h

/-- A run from a well-formed Optional goes through when the Optional
arguments of its mutators are consistent. -/
theorem run_total (C : Contained T A E) (ops : List (Op T A)) (o : Optional T)
    (hwf : o.wf = true) (hok : ∀ op ∈ ops, op.source_ok = true) :
    ∃ r, run C o ops = some r := by
  induction ops generalizing o with
  | nil => exact ⟨_, rfl⟩
  | cons op ops ih =>
    have hop := Op_lifetime C o op hwf
    obtain ⟨s1, hs1⟩ := hop.2 (hok op (List.mem_cons_self _ _))
    have hw1 := (hop.1 s1 hs1).1
    obtain ⟨r, hr⟩ := ih s1 hw1 (fun q hq => hok q (List.mem_cons_of_mem _ hq))
    simp only [run]
    cases hres : op.apply C o with
    | ret x s2 t1 =>
      rw [hres] at hs1
      simp only [Res.state?, Option.some.injEq] at hs1
      subst hs1
      exact ⟨(r.1, t1 ++ r.2), by simp only [hr, Option.map_some']⟩
    | raise e s2 t1 =>
      rw [hres] at hs1
      simp only [Res.state?, Option.some.injEq] at hs1
      subst hs1
      exact ⟨(r.1, t1 ++ r.2), by simp only [hr, Option.map_some']⟩
    | terminate t1 => rw [hres] at hs1; simp [Res.state?] at hs1
    | ub => rw [hres] at hs1; simp [Res.state?] at hs1

/-- Take any finite sequence of public mutators applied to an Optional from
its construction (the default member initialisers, on which every constructor
runs an assignment), each returning or raising. The run goes through whenever
the Optionals assigned from are consistent; it need not when one of them has
its flag set over an empty storage. When it has gone through
and the Optional is then destroyed, the destructor returns, and the whole
trace obeys the lifetime rules of the storage: every destructor call and every
assignment hits a live value, every construction starts on empty storage, and
no value is live at the end. Hence the number of destructor calls equals the
number of objects constructed. -/
theorem defined_runs_destroy_every_object_once (C : Contained T A E) (ops : List (Op T A)) :
    ((∀ op ∈ ops, op.source_ok = true) → ∃ r, run C Optional.init ops = some r) ∧
    (∀ (o : Optional T) (tr : List (Event T A)), run C Optional.init ops = some (o, tr) →
      ∃ tr2, (Optional_destructor o : Res (Event T A) E (Optional T) Unit)
          = .ret () Optional.init tr2 ∧
        replay C false (tr ++ tr2) = some false ∧
        born C (tr ++ tr2) = dtor_calls (tr ++ tr2)) := by
  refine ⟨run_total C ops Optional.init rfl, fun o tr h => ?_⟩
  obtain ⟨hw, hr⟩ := run_lifetime C ops Optional.init o tr rfl h
  obtain ⟨tr2, htr2, hr2⟩ := Reset_lifetime C o hw
  have hall : replay C false (tr ++ tr2) = some false := by
    rw [replay_append]
    simp only [Optional.init, Option.isSome_none] at hr
    rw [hr]
    exact hr2
  refine ⟨tr2, htr2, hall, ?_⟩
  have hb := replay_balance C (tr ++ tr2) false false hall
  simpa using hb

/-- A run of the raising type: assign 5, Emplace(0) (raises after destroying 5),
assign 3, Reset, Emplace(4), then destruction: three objects are constructed
and three destructors run, each on a live value. -/
theorem defined_runs_destroy_every_object_once_example :
    run fussyContained (Optional.init : Optional Nat)
        [.assign_T .lvalue 5, .Emplace 0, .assign_T .rvalue 3, .Reset, .Emplace 4]
      = some ({ data_ := some 4, is_initialized_ := true, ptr_ := .data },
          [.ctor_copy 5, .dtor 5, .ctor_args 0, .ctor_move 3, .dtor 3, .ctor_args 4]) ∧
    ∃ tr2, (Optional_destructor
          ({ data_ := some 4, is_initialized_ := true, ptr_ := .data } : Optional Nat) :
          Res (Event Nat Nat) Unit (Optional Nat) Unit)
        = .ret () Optional.init tr2 ∧
      replay fussyContained false
          ([.ctor_copy 5, .dtor 5, .ctor_args 0, .ctor_move 3, .dtor 3, .ctor_args 4] ++ tr2)
        = some false ∧
      born fussyContained
          ([.ctor_copy 5, .dtor 5, .ctor_args 0, .ctor_move 3, .dtor 3, .ctor_args 4] ++ tr2)
        = dtor_calls
          ([.ctor_copy 5, .dtor 5, .ctor_args 0, .ctor_move 3, .dtor 3, .ctor_args 4] ++ tr2) :=
  ⟨rfl, (defined_runs_destroy_every_object_once fussyContained
      [.assign_T .lvalue 5, .Emplace 0, .assign_T .rvalue 3, .Reset, .Emplace 4]).2 _ _ rfl⟩

/-- Self-assignment of a well-formed Optional, in the copy or the move form,
in the two cases where the flag agrees with the storage. When it holds a
value v, the only T operation invoked is one assignment
of v to itself: no destructor, no construction; whether that assignment
returns or raises, the Optional is left engaged, holding the live value as T's
self-assignment left it. When HasValue() is false, the self-assignment returns
with the state unchanged, having invoked nothing. -/
theorem self_assignment_of_consistent_Optional (self_assign : ValueCategory → T → Option E × T)
    (cat : ValueCategory) (o : Optional T) (hwf : o.wf = true) :
    (∀ v, o.data_ = some v →
      (assign_from_self self_assign cat o : Res (Event T A) E (Optional T) Unit).trace
        = [(assign_self_forwarded self_assign cat v : Option E × T × Event T A).2.2] ∧
      assign_calls
        (assign_from_self self_assign cat o : Res (Event T A) E (Optional T) Unit).trace = 1 ∧
      dtor_calls
        (assign_from_self self_assign cat o : Res (Event T A) E (Optional T) Unit).trace = 0 ∧
      ctor_calls
        (assign_from_self self_assign cat o : Res (Event T A) E (Optional T) Unit).trace = 0 ∧
      (assign_from_self self_assign cat o : Res (Event T A) E (Optional T) Unit).state?
        = some { o with data_ := some (self_assign cat v).2 } ∧
      HasValue ({ o with data_ := some (self_assign cat v).2 } : Optional T) = true ∧
      ((self_assign cat v).1 = none →
        (assign_from_self self_assign cat o : Res (Event T A) E (Optional T) Unit)
          = .ret () { o with data_ := some (self_assign cat v).2 }
              [(assign_self_forwarded self_assign cat v : Option E × T × Event T A).2.2])) ∧
    (HasValue o = false →
      (assign_from_self self_assign cat o : Res (Event T A) E (Optional T) Unit)
        = .ret () o []) := by
  rcases o with ⟨d, i, p⟩
  rcases wf_cases _ hwf with ⟨hp, hd⟩ | ⟨old, hp, hd, hi⟩
  · simp only at hp hd
    subst hp hd
    refine ⟨fun v h => by simp at h, fun hv => ?_⟩
    simp only [HasValue] at hv
    subst hv
    rfl
  · simp only at hp hd hi
    subst hp hd hi
    refine ⟨fun v h => ?_, fun hv => by simp [HasValue] at hv⟩
    simp only [Option.some.injEq] at h
    subst h
    cases cat
    · cases hs : (self_assign .lvalue old).1 <;>
        simp [assign_from_self, HasValue, Value, operator_star, Forward_self,
          assign_self_forwarded, hs, Res.trace, Res.state?, assign_calls, dtor_calls,
          ctor_calls, Event.isAssign, Event.isDtor, Event.isCtor]
    · cases hs : (self_assign .rvalue old).1 <;>
        simp [assign_from_self, HasValue, Value, operator_star, Forward_self,
          assign_self_forwarded, hs, Res.trace, Res.state?, assign_calls, dtor_calls,
          ctor_calls, Event.isAssign, Event.isDtor, Event.isCtor]

/-- The case `Optional<int> a(5); a = a;`. -/
theorem self_assignment_of_consistent_Optional_example :
    (({ data_ := some 5, is_initialized_ := true, ptr_ := .data } : Optional Int).wf = true) ∧
    (assign_from_self int_self_assign .lvalue
        ({ data_ := some 5, is_initialized_ := true, ptr_ := .data } : Optional Int) :
        Res (Event Int Int) Empty (Optional Int) Unit)
      = .ret () { data_ := some 5, is_initialized_ := true, ptr_ := .data }
          [.assign_copy 5 5] :=
  ⟨rfl, ((self_assignment_of_consistent_Optional (A := Int) int_self_assign .lvalue
      ({ data_ := some 5, is_initialized_ := true, ptr_ := .data } : Optional Int) rfl).1
      5 rfl).2.2.2.2.2.2 rfl⟩

/-- A mutation of the object at `b`, whose `ptr_` is null or points into its
own storage, leaves every other object as it was, and `ptr_` of `b` still
null or pointing into its own storage. -/
theorem Mutation_frame (C : Contained T A E) (m m2 : Memory T) (b c : Nat)
    (mu : Mutation T A) (hne : b ≠ c) (hown : owns_at m b = true)
    (h : (mu.apply_at C m b).state? = some m2) :
    m2 c = m c ∧ owns_at m2 b = true := by
  have hcb : ¬ c = b := fun h => hne h.symm
  cases hp : (m b).ptr_ with
  | none =>
    cases mu with
    | assign_T cat v =>
      simp only [Mutation.apply_at, assign_T_at, Forward_at, hp] at h
      rcases hcf : construct_forwarded C cat v with ⟨r, v2, ev⟩
      rw [hcf] at h
      cases r <;>
        (simp only [Res.mapState, Res.state?, Option.some.injEq] at h
         subst h
         simp [Memory.write, hcb, owns_at, hp])
    | Reset =>
      simp only [Mutation.apply_at, Reset_at, destroy_held_at, hp, Res.state?,
        Option.some.injEq] at h
      subst h
      simp [Memory.write, hcb, owns_at, hp]
    | Emplace args =>
      simp only [Mutation.apply_at, Emplace_at, destroy_held_at, hp] at h
      cases hc : C.construct args <;>
        (simp only [hc, Res.state?, Option.some.injEq] at h
         subst h
         simp [Memory.write, hcb, owns_at, hp])
    | write v2 =>
      simp [Mutation.apply_at, write_through_at, hp, Res.state?] at h
  | some a =>
    have ha : a = b := by simpa [owns_at, hp] using hown
    subst ha
    cases hd : (m a).data_ with
    | none =>
      cases mu <;>
        simp [Mutation.apply_at, assign_T_at, Forward_at, Reset_at, Emplace_at,
          destroy_held_at, write_through_at, hp, hd, Res.mapState, Res.state?] at h
    | some old =>
      cases mu with
      | assign_T cat v =>
        simp only [Mutation.apply_at, assign_T_at, Forward_at, hp, hd] at h
        rcases haf : assign_forwarded C cat old v with ⟨r, new, v2, ev⟩
        rw [haf] at h
        cases r <;>
          (simp only [Res.mapState, Res.state?, Option.some.injEq] at h
           subst h
           simp [Memory.write, hcb, owns_at, hp])
      | Reset =>
        simp only [Mutation.apply_at, Reset_at, destroy_held_at, hp, hd, Res.state?,
          Option.some.injEq] at h
        subst h
        simp [Memory.write, hcb, owns_at]
      | Emplace args =>
        simp only [Mutation.apply_at, Emplace_at, destroy_held_at, hp, hd] at h
        cases hc : C.construct args <;>
          (simp only [hc, Res.state?, Option.some.injEq] at h
           subst h
           simp [Memory.write, hcb, owns_at])
      | write v2 =>
        simp only [Mutation.apply_at, write_through_at, hp, hd, Res.state?,
          Option.some.injEq] at h
        subst h
        simp [Memory.write, hcb, owns_at, hp]

/-- On an object whose `ptr_` is null or points into its own storage, the
operations over a memory do to that object what the operations on a single
Optional do. -/
theorem view_agrees (C : Contained T A E) (m : Memory T) (this : Nat)
    (hown : owns_at m this = true) :
    (∀ cat v, (Forward_at C cat m this v).mapState (fun p => (p.1.view this, p.2))
      = Forward C cat (m.view this) v) ∧
    (Reset_at m this : Res (Event T A) E (Memory T) Unit).mapState (fun q => q.view this)
      = Reset (m.view this) ∧
    (∀ args, (Emplace_at C m this args).mapState (fun q => q.view this)
      = Emplace C (m.view this) args) ∧
    (operator_star_at m this : Res (Event T A) E (Memory T) T).mapState
        (fun q => q.view this)
      = operator_star (m.view this) := by
  cases hp : (m this).ptr_ with
  | none =>
    refine ⟨fun cat v => ?_, ?_, fun args => ?_, ?_⟩
    · simp only [Forward_at, Forward, Memory.view, hp]
      rcases construct_forwarded C cat v with ⟨r, v2, ev⟩
      cases r <;> simp [Res.mapState, Memory.view, Memory.write]
    · simp [Reset_at, Reset, destroy_held_at, destroy_held, Memory.view, hp, Res.mapState,
        Memory.write]
    · simp only [Emplace_at, Emplace, destroy_held_at, destroy_held, Memory.view, hp]
      cases C.construct args <;> simp [Res.mapState, Memory.view, Memory.write]
    · simp [operator_star_at, operator_star, Memory.view, hp, Res.mapState]
  | some a =>
    have ha : a = this := by simpa [owns_at, hp] using hown
    subst ha
    cases hd : (m a).data_ with
    | none =>
      refine ⟨fun cat v => ?_, ?_, fun args => ?_, ?_⟩ <;>
        simp [Forward_at, Forward, Reset_at, Reset, Emplace_at, Emplace, destroy_held_at,
          destroy_held, operator_star_at, operator_star, Memory.view, hp, hd, Res.mapState]
    | some old =>
      refine ⟨fun cat v => ?_, ?_, fun args => ?_, ?_⟩
      · simp only [Forward_at, Forward, Memory.view, hp, hd]
        rcases assign_forwarded C cat old v with ⟨r, new, v2, ev⟩
        cases r <;> simp [Res.mapState, Memory.view, Memory.write, hp]
      · simp [Reset_at, Reset, destroy_held_at, destroy_held, Memory.view, hp, hd,
          Res.mapState, Memory.write, Optional.init]
      · simp only [Emplace_at, Emplace, destroy_held_at, destroy_held, Memory.view, hp, hd]
        cases C.construct args <;> simp [Res.mapState, Memory.view, Memory.write]
      · simp [operator_star_at, operator_star, Memory.view, hp, hd, Res.mapState]

/-- Reading an object through a `ptr_` into its own storage depends on that
object alone. -/
theorem operator_star_at_own (m : Memory T) (c : Nat) (w : T)
    (hp : (m c).ptr_ = some c) (hd : (m c).data_ = some w) :
    (operator_star_at m c : Res (Event T A) E (Memory T) T) = .ret w m [] := by
  simp [operator_star_at, hp, hd]

/-- Any sequence of mutations of the object at `b` leaves every other object
as it was. -/
theorem run_at_frame (C : Contained T A E) (mus : List (Mutation T A)) (m m2 : Memory T)
    (b c : Nat) (hne : b ≠ c) (hown : owns_at m b = true)
    (h : run_at C m b mus = some m2) :
    m2 c = m c ∧ owns_at m2 b = true := by
  induction mus generalizing m with
  | nil =>
    simp only [run_at, Option.some.injEq] at h
    subst h
    exact ⟨rfl, hown⟩
  | cons mu mus ih =>
    simp only [run_at] at h
    cases hs : (mu.apply_at C m b).state? with
    | none => rw [hs] at h; simp at h
    | some m1 =>
      rw [hs] at h
      obtain ⟨h1, ho1⟩ := Mutation_frame C m m1 b c mu hne hown hs
      obtain ⟨h2, ho2⟩ := ih m1 ho1 h
      exact ⟨h2.trans h1, ho2⟩

/-- C15: let b be an engaged Optional holding v, with `ptr_` into its own
storage, and let c be built at another address as a copy of b, T's copy of v
being w. The construction returns, leaves b as it was, and c engaged with w in
its own storage. After any sequence of assignments of values, Reset, Emplace
and writes through `*b` applied to b, c is exactly as the construction left
it: HasValue() true and `*c` equal to w. The same with the roles of b and c
exchanged: whatever is done to c, b still has HasValue() true and `*b` equal
to v. In particular `Optional<int> b(10); Optional<int> c(b); b = 20;` leaves
`*c == 10` and `*b == 20`. -/
theorem C15_copies_are_independent (C : Contained T A E) (m : Memory T) (b c : Nat)
    (v w : T) (hne : b ≠ c)
    (hi : HasValue_at m b = true) (hp : (m b).ptr_ = some b) (hd : (m b).data_ = some v)
    (hc : C.copy_construct v = .ok w) :
    (∃ m1 : Memory T,
      Optional_const_Optional_at C m c b = .ret () m1 [.ctor_copy v] ∧
      m1 b = m b ∧
      HasValue_at m1 c = true ∧
      (operator_star_at m1 c : Res (Event T A) E (Memory T) T) = .ret w m1 [] ∧
      (∀ (mus : List (Mutation T A)) (m2 : Memory T), run_at C m1 b mus = some m2 →
        m2 c = m1 c ∧ HasValue_at m2 c = true ∧
        (operator_star_at m2 c : Res (Event T A) E (Memory T) T) = .ret w m2 []) ∧
      (∀ (mus : List (Mutation T A)) (m2 : Memory T), run_at C m1 c mus = some m2 →
        m2 b = m1 b ∧ HasValue_at m2 b = true ∧
        (operator_star_at m2 b : Res (Event T A) E (Memory T) T) = .ret v m2 [])) ∧
    (∃ (m1 m2 m3 : Memory Int) (tr1 tr2 tr3 : List (Event Int Int)),
      Optional_from_T_at intContained .rvalue Memory.raw 0 10 = .ret () (m1, 10) tr1 ∧
      Optional_const_Optional_at intContained m1 1 0 = .ret () m2 tr2 ∧
      (operator_star_at m2 1 : Res (Event Int Int) Empty (Memory Int) Int) = .ret 10 m2 [] ∧
      assign_T_at intContained .rvalue m2 0 20 = .ret () (m3, 20) tr3 ∧
      (operator_star_at m3 1 : Res (Event Int Int) Empty (Memory Int) Int) = .ret 10 m3 [] ∧
      (operator_star_at m3 0 : Res (Event Int Int) Empty (Memory Int) Int)
        = .ret 20 m3 []) := by
  have hcb : ¬ c = b := fun h => hne h.symm
  constructor
  · have hi0 : HasValue_at (m.write c Placed.init) b = true := by
      simpa [HasValue_at, Memory.write, hne] using hi
    have hv0 : (Value_at (m.write c Placed.init) b : Res (Event T A) E (Memory T) T)
        = .ret v (m.write c Placed.init) [] := by
      simp only [HasValue_at, Memory.write, hne, if_false] at hi
      simp [Value_at, operator_star_at, Memory.write, hne, hi, hp, hd]
    refine ⟨(m.write c Placed.init).write c
        { data_ := some w, is_initialized_ := true, ptr_ := some c }, ?_, ?_, ?_, ?_, ?_, ?_⟩
    · simp only [Optional_const_Optional_at, assign_const_Optional_at, hi0, if_true, hv0]
      simp [Forward_at, Memory.write, Placed.init, construct_forwarded, hc, Res.mapState]
    · simp [Memory.write, hne]
    · simp [HasValue_at, Memory.write]
    · simp [operator_star_at, Memory.write]
    · intro mus m2 h
      have hown : owns_at ((m.write c Placed.init).write c
          { data_ := some w, is_initialized_ := true, ptr_ := some c }) b = true := by
        simp [owns_at, Memory.write, hne, hp]
      obtain ⟨h1, _⟩ := run_at_frame C mus _ m2 b c hne hown h
      refine ⟨h1, ?_, ?_⟩
      · simp [HasValue_at, h1, Memory.write]
      · apply operator_star_at_own <;> simp [h1, Memory.write]
    · intro mus m2 h
      have hown : owns_at ((m.write c Placed.init).write c
          { data_ := some w, is_initialized_ := true, ptr_ := some c }) c = true := by
        simp [owns_at, Memory.write]
      obtain ⟨h1, _⟩ := run_at_frame C mus _ m2 c b hcb hown h
      refine ⟨h1, ?_, ?_⟩
      · simpa [HasValue_at, h1, Memory.write, hne] using hi
      · apply operator_star_at_own <;> simp [h1, Memory.write, hne, hp, hd]
  · exact ⟨_, _, _, _, _, _, rfl, rfl, rfl, rfl, rfl, rfl⟩

/-- C15 at `Optional<int>`: b at address 0 holds 10 and c is built at
address 1 as its copy. -/
theorem C15_copies_are_independent_witness :
    ((0 : Nat) ≠ 1 ∧
     HasValue_at ((Memory.raw : Memory Int).write 0
        { data_ := some 10, is_initialized_ := true, ptr_ := some 0 }) 0 = true ∧
     intContained.copy_construct 10 = .ok 10) ∧
    ∃ m1 : Memory Int,
      Optional_const_Optional_at intContained ((Memory.raw : Memory Int).write 0
          { data_ := some 10, is_initialized_ := true, ptr_ := some 0 }) 1 0
        = .ret () m1 [.ctor_copy 10] ∧
      HasValue_at m1 1 = true ∧
      (operator_star_at m1 1 : Res (Event Int Int) Empty (Memory Int) Int) = .ret 10 m1 [] :=
  ⟨⟨by decide, rfl, rfl⟩,
   match (C15_copies_are_independent intContained ((Memory.raw : Memory Int).write 0
      { data_ := some 10, is_initialized_ := true, ptr_ := some 0 }) 0 1 10 10
      (by decide) rfl rfl rfl rfl).1 with
   | ⟨m1, h1, _, h3, h4, _⟩ => ⟨m1, h1, h3, h4⟩⟩

/-- C14 (the code departs from it): `Optional<Fussy> b(5)` followed by
`b.Emplace(0)`, whose construction raises, leaves b holding no value with
HasValue() true. Constructing an Optional from b, by copy or by move, then
reads b through its null `ptr_`: the outcome is undefined behaviour, neither
the engaged copy promised for an engaged source nor the disengaged instance
promised for a source that holds nothing. -/
theorem C14_construct_from_failed_emplace_source_is_undefined :
    ∃ (b1 b2 : Optional Nat) (tr1 tr2 : List (Event Nat Nat)),
      Optional_const_T fussyContained 5 = .ret () (b1, 5) tr1 ∧
      Emplace fussyContained b1 0 = .raise (.contained ()) b2 tr2 ∧
      b2.data_ = none ∧ HasValue b2 = true ∧
      Optional_const_Optional fussyContained b2 = .ub ∧
      Optional_rvalue_Optional fussyContained b2 = .ub ∧
      (∀ cat, Optional_from_Optional fussyContained cat b2 = .ub) :=
  ⟨{ data_ := some 5, is_initialized_ := true, ptr_ := .data },
   { data_ := none, is_initialized_ := true, ptr_ := .null },
   [.ctor_copy 5], [.dtor 5, .ctor_args 0], rfl, rfl, rfl, rfl, rfl, rfl,
   fun cat => by cases cat <;> rfl⟩

/-- C20 (the code departs from it): `Optional<Fussy> a(5)` followed by
`a.Emplace(0)`, whose construction raises, leaves a holding no value with
HasValue() true. The self-assignment `a = a`, in the copy or the move form,
then takes the branch `Forward(rhs.Value())` and reads a through its null
`ptr_`: the outcome is undefined behaviour, not the unchanged state promised
for an Optional that holds nothing, nor one self-assignment of a live value. -/
theorem C20_self_assignment_after_failed_emplace_is_undefined :
    ∃ (a1 a2 : Optional Nat) (tr1 tr2 : List (Event Nat Nat)),
      Optional_const_T fussyContained 5 = .ret () (a1, 5) tr1 ∧
      Emplace fussyContained a1 0 = .raise (.contained ()) a2 tr2 ∧
      a2.data_ = none ∧ HasValue a2 = true ∧
      (assign_from_self fussy_self_assign .lvalue a2 :
        Res (Event Nat Nat) Unit (Optional Nat) Unit) = .ub ∧
      (assign_from_self fussy_self_assign .rvalue a2 :
        Res (Event Nat Nat) Unit (Optional Nat) Unit) = .ub :=
  ⟨{ data_ := some 5, is_initialized_ := true, ptr_ := .data },
   { data_ := none, is_initialized_ := true, ptr_ := .null },
   [.ctor_copy 5], [.dtor 5, .ctor_args 0], rfl, rfl, rfl, rfl, rfl, rfl⟩

/-- C12 (the code departs from it): two sequences of public operations whose
run is undefined, so that the lifetime guarantee is not delivered for them.
An Optional a is built holding 5 and `a.Emplace(0)` raises, leaving a with no
value and HasValue() true. First sequence, on a itself: construction,
the raising Emplace, then `a = a`, which dereferences the null `ptr_`. Second
sequence, on another Optional b: b is assigned 7, then `b = a` reads a through
its null `ptr_`; at that point one object (the 7) has been constructed in the
storage of b and no destructor has run, and the run does not reach the
destruction of b. -/
theorem C12_run_undefined_after_failed_emplace :
    ∃ (a : Optional Nat),
      run fussyContained (Optional.init : Optional Nat) [.assign_T .lvalue 5, .Emplace 0]
        = some (a, [.ctor_copy 5, .dtor 5, .ctor_args 0]) ∧
      a.data_ = none ∧ HasValue a = true ∧
      (assign_from_self fussy_self_assign .lvalue a :
        Res (Event Nat Nat) Unit (Optional Nat) Unit) = .ub ∧
      run fussyContained (Optional.init : Optional Nat) [.assign_T .lvalue 7]
        = some ({ data_ := some 7, is_initialized_ := true, ptr_ := .data }, [.ctor_copy 7]) ∧
      born fussyContained ([.ctor_copy 7] : List (Event Nat Nat)) = 1 ∧
      dtor_calls ([.ctor_copy 7] : List (Event Nat Nat)) = 0 ∧
      Op.apply fussyContained
          ({ data_ := some 7, is_initialized_ := true, ptr_ := .data } : Optional Nat)
          (.assign_Optional .lvalue a) = .ub ∧
      run fussyContained (Optional.init : Optional Nat)
          [.assign_T .lvalue 7, .assign_Optional .lvalue a] = none :=
  ⟨{ data_ := none, is_initialized_ := true, ptr_ := .null },
   rfl, rfl, rfl, rfl, rfl, rfl, rfl, rfl, rfl⟩

end Theorems

end OptionalModel
